import Mathlib

/-!
Verification development for the reStructuredText book-rendering driver
(`rst.py`): a shallow embedding of its numbering engine, reference
resolver, indexer, citation resolver and interactive-session colorizer,
with theorems checking the natural-language specification against the
code.

Conventions used throughout:
* Python `str` values are embedded as `String` / `List Char` (the source
  operates on byte strings; all inputs of interest are ASCII).
* Python regular expressions are embedded as explicit scanning functions
  whose behaviour is derived from the exact pattern in the source,
  including alternation order and greediness.
* Python list/dict mutation becomes explicit state passing.
-/

namespace Rst

/-! ## Python string primitives -/

/-- Python `\s` for byte strings: space, tab, newline, CR, vertical tab, form feed. -/
def isPySpace (c : Char) : Bool :=
  c = ' ' || c = '\t' || c = '\n' || c = '\r' || c = '\x0b' || c = '\x0c'

/-- Python `\w` for byte strings without the UNICODE flag: `[A-Za-z0-9_]`. -/
def isWordChar (c : Char) : Bool :=
  ('a' ≤ c && c ≤ 'z') || ('A' ≤ c && c ≤ 'Z') || ('0' ≤ c && c ≤ '9') || c = '_'

/-- Python `\d`. -/
def isDigitChar (c : Char) : Bool := '0' ≤ c && c ≤ '9'

def pyLStripL (cs : List Char) : List Char := cs.dropWhile isPySpace

def pyRStripL (cs : List Char) : List Char := (cs.reverse.dropWhile isPySpace).reverse

/-- Python `str.strip()`. -/
def pyStrip (s : String) : String := String.mk (pyRStripL (pyLStripL s.data))

/-- Python `str.rstrip()`. -/
def pyRStrip (s : String) : String := String.mk (pyRStripL s.data)

/-- Python `str.lower()` (ASCII). -/
def pyLower (s : String) : String := String.mk (s.data.map Char.toLower)

/-- Python `s[i]` with negative-index support; out-of-range (an `IndexError`
in Python, never reached by the theorems below) yields the default. -/
def pyGetD {α : Type} (l : List α) (i : Int) (dflt : α) : α :=
  if i < 0 then
    if (-i).toNat ≤ l.length then l.getD (l.length - (-i).toNat) dflt else dflt
  else l.getD i.toNat dflt

/-- Python `s.split('\n')` at the character level. -/
def splitNlL : List Char → List (List Char)
  | [] => [[]]
  | c :: rest =>
    if c = '\n' then [] :: splitNlL rest
    else match splitNlL rest with
      | g :: gs => (c :: g) :: gs
      | [] => [[c]]

/-- Python `s.split('\n')`. -/
def splitOnNl (s : String) : List String := (splitNlL s.data).map String.mk

/-- Python `'\n'.join(...)` at the character level. -/
def joinNlL : List (List Char) → List Char
  | [] => []
  | [g] => g
  | g :: gs => g ++ '\n' :: joinNlL gs

/-- Python `'\n'.join(...)`. -/
def joinNl (ls : List String) : String := String.mk (joinNlL (ls.map String.data))

/-! ## Interactive-session colorizer (`colorize_doctestblock`)

The colorizer is embedded so that each call of the source's
`markup_func(s, tag)` becomes one `Piece.span tag s`, and the raw
(uncoloured) characters that the regex substitution passes through
unchanged become `Piece.raw` pieces.  The source then performs string
operations (`+`, `'\n'.join`, `.strip()`) on the marked-up text; with the
program's actual markup functions (HTML `<span …>…</span>` or LaTeX
`\pysrc…{…}`) markup output never begins or ends with whitespace, so
`.strip()` only ever trims the raw pieces at the two ends — which is how
`stripPieces` below is defined. -/

inductive Piece where
  | span (tag : String) (text : String)
  | raw (text : String)
deriving DecidableEq, Repr

/-- The Python 2.4 keyword list hard-coded in the source (`_KEYWORDS`),
in source order. -/
def KEYWORDS : List String :=
  ["and", "del", "for", "is", "raise",
   "assert", "elif", "from", "lambda", "return",
   "break", "else", "global", "not", "try",
   "class", "except", "if", "or", "while",
   "continue", "exec", "import", "pass", "yield",
   "def", "finally", "in", "print",
   "as"]

/-- Modelled from the spec: the builtin-identifier list is supplied by the
execution environment (`dir(__builtins__)` of the interpreter running the
script); a fixed, representative CPython 2 list is used here. -/
def pyBuiltins : List String :=
  ["ArithmeticError", "AssertionError", "AttributeError", "BaseException",
   "DeprecationWarning", "EOFError", "Ellipsis", "EnvironmentError",
   "Exception", "False", "FloatingPointError", "FutureWarning",
   "GeneratorExit", "IOError", "ImportError", "ImportWarning",
   "IndentationError", "IndexError", "KeyError", "KeyboardInterrupt",
   "LookupError", "MemoryError", "NameError", "None", "NotImplemented",
   "NotImplementedError", "OSError", "OverflowError",
   "PendingDeprecationWarning", "ReferenceError", "RuntimeError",
   "RuntimeWarning", "StandardError", "StopIteration", "SyntaxError",
   "SyntaxWarning", "SystemError", "SystemExit", "TabError", "True",
   "TypeError", "UnboundLocalError", "UnicodeDecodeError",
   "UnicodeEncodeError", "UnicodeError", "UnicodeTranslateError",
   "UnicodeWarning", "UserWarning", "ValueError", "Warning",
   "ZeroDivisionError", "abs", "all", "any", "apply", "basestring",
   "bool", "buffer", "callable", "chr", "classmethod", "cmp", "coerce",
   "compile", "complex", "delattr", "dict", "dir", "divmod", "enumerate",
   "eval", "execfile", "file", "filter", "float", "frozenset", "getattr",
   "globals", "hasattr", "hash", "help", "hex", "id", "input", "int",
   "intern", "isinstance", "issubclass", "iter", "len", "list", "locals",
   "long", "map", "max", "min", "object", "oct", "open", "ord", "pow",
   "property", "range", "raw_input", "reduce", "reload", "repr",
   "reversed", "round", "set", "setattr", "slice", "sorted",
   "staticmethod", "str", "sum", "super", "tuple", "type", "unichr",
   "unicode", "vars", "xrange", "zip"]

/-- One lexical token of the `DOCTEST_RE` alternation. -/
inductive PyTok where
  | strTok (text : String)
  | commentTok (text : String)
  | keywordTok (text : String)
  | builtinTok (text : String)
  | prompt1Tok (text : String)
  | prompt2Tok (text : String)
  | wsTok (text : String)
  | otherTok (c : Char)
deriving DecidableEq, Repr

/-- Helper for the lazy string-literal patterns `.*?((?!q).)CLOSE`: the
least `k` such that the character at offset `k` is outside `bad` and is
immediately followed by `close`; returns the total number of characters
from offset 0 through the end of `close`. -/
def strSearch (bad : List Char) (close : List Char) : List Char → Option Nat
  | [] => none
  | c :: rest =>
    if ¬ bad.contains c ∧ close.isPrefixOf rest then some (1 + close.length)
    else match strSearch bad close rest with
      | some n => some (n + 1)
      | none => none

/-- The `_STRING` alternation of `DOCTEST_RE`: triple-double, single-double,
triple-single, single-single quoted forms, in source order; returns the
match length. -/
def matchPyString : List Char → Option Nat
  | '"' :: '"' :: '"' :: rest =>
    if ['"', '"', '"'].isPrefixOf rest then some 6
    else match strSearch ['"'] ['"', '"', '"'] rest with
      | some n => some (3 + n)
      | none => some 2
  | '"' :: rest =>
    match rest with
    | '"' :: _ => some 2
    | _ => match strSearch ['"'] ['"'] rest with
      | some n => some (1 + n)
      | none => none
  | '\'' :: '\'' :: '\'' :: rest =>
    if [ '\'', '\'', '\''].isPrefixOf rest then some 6
    else match strSearch ['\\', '\''] ['\'', '\'', '\''] rest with
      | some n => some (3 + n)
      | none => some 2
  | '\'' :: rest =>
    match rest with
    | '\'' :: _ => some 2
    | _ => match strSearch ['\\', '\''] ['\''] rest with
      | some n => some (1 + n)
      | none => none
  | _ => none

/-- `\b` before a keyword/builtin (which begins with a word character):
satisfied at the start of the string or after a non-word character. -/
def wordBoundaryOk (prev : Option Char) : Bool :=
  match prev with
  | none => true
  | some c => ¬ isWordChar c

/-- Match one word of `ws` (in order) at the head of `cs`, with `\b` on
both sides; returns its length. -/
def matchWordIn (ws : List String) (prev : Option Char) (cs : List Char) : Option Nat :=
  if wordBoundaryOk prev then
    ws.findSome? fun w =>
      if w.data.isPrefixOf cs then
        match (cs.drop w.data.length).head? with
        | none => some w.data.length
        | some c => if isWordChar c then none else some w.data.length
      else none
  else none

/-- `^\s*SYM(?:\s|$)` with MULTILINE: `atLineStart` says whether the
current position is the string start or just after a newline; `\s*` can
only stop at the end of its maximal run (no whitespace char begins `SYM`).
`(?:\s|$)` consumes one whitespace character when present. -/
def matchPromptWith (sym : List Char) (atLineStart : Bool) (cs : List Char) : Option Nat :=
  if atLineStart then
    let wsn := (cs.takeWhile isPySpace).length
    let rest := cs.drop wsn
    if sym.isPrefixOf rest then
      match (rest.drop sym.length).head? with
      | some c => if isPySpace c then some (wsn + sym.length + 1) else none
      | none => some (wsn + sym.length)
    else none
  else none

/-- One step of the `DOCTEST_RE` scan: the alternation
`STRING|COMMENT|KEYWORD|BUILTIN|PROMPT1|PROMPT2|\s|.` tried in order at
the current position.  Returns the token and its length. -/
def nextPyTok (builtins : List String) (prev : Option Char) (cs : List Char) :
    Option (PyTok × Nat) :=
  match cs with
  | [] => none
  | c :: _ =>
    let atLS : Bool := prev = none ∨ prev = some '\n'
    match matchPyString cs with
    | some n => some (.strTok (String.mk (cs.take n)), n)
    | none =>
      if c = '#' then
        let t := cs.takeWhile (fun d => d ≠ '\n')
        some (.commentTok (String.mk t), t.length)
      else match matchWordIn KEYWORDS prev cs with
      | some n => some (.keywordTok (String.mk (cs.take n)), n)
      | none => match matchWordIn builtins prev cs with
      | some n => some (.builtinTok (String.mk (cs.take n)), n)
      | none => match matchPromptWith ['>', '>', '>'] atLS cs with
      | some n => some (.prompt1Tok (String.mk (cs.take n)), n)
      | none => match matchPromptWith ['.', '.', '.'] atLS cs with
      | some n => some (.prompt2Tok (String.mk (cs.take n)), n)
      | none =>
        if isPySpace c then some (.wsTok (String.mk [c]), 1)
        else some (.otherTok c, 1)

/-- The `DOCTEST_RE` scan over a whole string: repeated leftmost matching
of the alternation.  Every token consumes at least one character, so fuel
`cs.length + 1` always suffices; running out of fuel is unreachable and
yields `[]`. -/
def scanPyToks (builtins : List String) : Nat → Option Char → List Char → List PyTok
  | 0, _, _ => []
  | _ + 1, _, [] => []
  | fuel + 1, prev, c :: rest =>
    match nextPyTok builtins prev (c :: rest) with
    | none => []
    | some (t, n) =>
      t :: scanPyToks builtins fuel ((c :: rest).take n).getLast? ((c :: rest).drop n)

/-- Tokenize a source run as `DOCTEST_RE.sub` visits it. -/
def runScan (builtins : List String) (cs : List Char) : List PyTok :=
  scanPyToks builtins (cs.length + 1) none cs

/-- `PROMPT2_RE.split` on the text of a multi-line string literal: the
pieces between matches and the matches themselves, alternating, starting
(possibly with an empty string) with a non-match piece. -/
def promptSplitAux (builtins : List String) :
    Nat → Option Char → List Char → List Char → List String
  | 0, _, acc, _ => [String.mk acc.reverse]
  | _ + 1, _, acc, [] => [String.mk acc.reverse]
  | fuel + 1, prev, acc, c :: rest =>
    let atLS : Bool := prev = none ∨ prev = some '\n'
    match matchPromptWith ['.', '.', '.'] atLS (c :: rest) with
    | some n =>
      String.mk acc.reverse :: String.mk ((c :: rest).take n) ::
        promptSplitAux builtins fuel ((c :: rest).take n).getLast? [] ((c :: rest).drop n)
    | none => promptSplitAux builtins fuel (some c) (c :: acc) rest

/-- `[markup_func(s, ['string','more'][i%2]) for i, s in enumerate(...)]`. -/
def altStringMore : Nat → List String → List Piece
  | _, [] => []
  | i, s :: rest =>
    Piece.span (if i % 2 = 0 then "string" else "more") s :: altStringMore (i + 1) rest

/-- The pieces a multi-line string literal contributes: its
`PROMPT2_RE.split` pieces tagged alternately `string` / `more`. -/
def multilineStringPieces (builtins : List String) (s : String) : List Piece :=
  altStringMore 0 (promptSplitAux builtins (s.data.length + 1) none [] s.data)

/-- The state of `subfunc`'s `other` aggregation buffer plus the output
pieces produced so far.  N.B. the buffer is shared across all
`DOCTEST_RE.sub` calls of one `colorize_doctestblock` invocation (the
source only clears it inside `subfunc`). -/
structure SubSt where
  other : List Char
  pieces : List Piece
deriving Repr

def flushOther (st : SubSt) : List Piece :=
  if st.other.isEmpty then [] else [Piece.span "other" (String.mk st.other)]

/-- One `subfunc` invocation. -/
def applyTok (builtins : List String) (st : SubSt) : PyTok → SubSt
  | .otherTok c => { st with other := st.other ++ [c] }
  | t =>
    let v := flushOther st
    let pcs : List Piece :=
      match t with
      | .wsTok s => v ++ [Piece.raw s]
      | .prompt1Tok s => v ++ [Piece.span "prompt" s]
      | .prompt2Tok s => v ++ [Piece.span "more" s]
      | .keywordTok s => v ++ [Piece.span "keyword" s]
      | .builtinTok s => v ++ [Piece.span "builtin" s]
      | .commentTok s => v ++ [Piece.span "comment" s]
      | .strTok s =>
        if s.data.contains '\n' then v ++ multilineStringPieces builtins s
        else v ++ [Piece.span "string" s]
      | .otherTok _ => v
    { other := [], pieces := st.pieces ++ pcs }

/-- `DOCTEST_RE.sub(subfunc, s)` followed by the caller's trailing
`if other: pysrc += markup_func(''.join(other), 'other')` — which does
*not* clear the buffer; the possibly-stale buffer is returned. -/
def subPiecesSt (builtins : List String) (other0 : List Char) (s : String) :
    List Piece × List Char :=
  let st := (runScan builtins s.data).foldl (applyTok builtins) ⟨other0, []⟩
  (st.pieces ++ (if st.other.isEmpty then [] else [Piece.span "other" (String.mk st.other)]),
   st.other)

/-- `.strip()` on a marked-up string: only the raw pieces at either end
hold strippable whitespace (markup output never starts or ends with
whitespace). -/
def stripPiecesLeft : List Piece → List Piece
  | [] => []
  | Piece.raw t :: rest =>
    let t' := String.mk (pyLStripL t.data)
    if t'.isEmpty then stripPiecesLeft rest else Piece.raw t' :: rest
  | ps => ps

def stripPiecesRight : List Piece → List Piece
  | [] => []
  | Piece.raw t :: rest =>
    let t' := String.mk (pyRStripL t.data)
    if t'.isEmpty then stripPiecesRight rest else Piece.raw t' :: rest
  | ps => ps

def stripPieces (ps : List Piece) : List Piece :=
  (stripPiecesRight (stripPiecesLeft ps).reverse).reverse

/-- `PROMPT_RE.match(line)`: does the line begin (after optional
whitespace) with a primary or continuation prompt followed by whitespace
or the end? -/
def promptLine (line : String) : Bool :=
  let t := line.data.dropWhile isPySpace
  let after : List Char → Bool := fun r =>
    match r.head? with
    | none => true
    | some c => isPySpace c
  (['>', '>', '>'].isPrefixOf t ∧ after (t.drop 3)) ∨
  (['.', '.', '.'].isPrefixOf t ∧ after (t.drop 3))

/-- `EXCEPT_RE.match(pyout)`: greedy `(.*)` puts `group(2)` at the *last*
line that begins with the traceback marker; `group(1)` is everything
before that line, `group(2)` everything from it to the end. -/
def exceptSplit (s : String) : Option (String × String) :=
  let tb := "Traceback (most recent call last):"
  let ls := splitOnNl s
  match ls.reverse.findIdx? (fun l => tb.data.isPrefixOf l.data) with
  | none => none
  | some j =>
    let i := ls.length - 1 - j
    some (joinNl (ls.take i), joinNl (ls.drop i))

/-- `DOCTEST_DIRECTIVE_RE.sub('', s)`: delete every `#\s*doctest:.*`
(to end of line). -/
def stripDirectivesAux : Nat → List Char → List Char
  | 0, cs => cs
  | _ + 1, [] => []
  | fuel + 1, c :: rest =>
    if c = '#' then
      let ws := rest.takeWhile isPySpace
      let r2 := rest.drop ws.length
      if "doctest:".data.isPrefixOf r2 then
        stripDirectivesAux fuel ((r2.drop 8).dropWhile (fun d => d ≠ '\n'))
      else c :: stripDirectivesAux fuel rest
    else c :: stripDirectivesAux fuel rest

def stripDirectives (s : String) : String :=
  String.mk (stripDirectivesAux (s.data.length + 1) s.data)

/-- The per-line state of the block-mode loop of `colorize_doctestblock`. -/
structure BlockSt where
  pysrc : List String
  pyout : List String
  other : List Char
  result : List (List Piece)
deriving Repr

/-- One iteration of `for line in s.split('\n')+['\n']`. -/
def processLine (builtins : List String) (st : BlockSt) (line : String) : BlockSt :=
  if promptLine line then
    let st := { st with pysrc := st.pysrc ++ [line] }
    if st.pyout.isEmpty then st
    else
      let joined := pyRStrip (joinNl st.pyout)
      match exceptSplit joined with
      | some (g1, g2) =>
        let pyo := pyStrip g1
        let pyexc := pyStrip g2
        let warn : List (List Piece) :=
          if pyo.isEmpty then [] else [[Piece.span "output" pyo]]
        { st with pyout := [],
                  result := st.result ++ warn ++ [[Piece.span "except" pyexc]] }
      | none =>
        { st with pyout := [], result := st.result ++ [[Piece.span "output" joined]] }
  else
    let st := { st with pyout := st.pyout ++ [line] }
    if st.pysrc.isEmpty then st
    else
      let (ps, other') := subPiecesSt builtins st.other (joinNl st.pysrc)
      { st with pysrc := [], other := other',
                result := st.result ++ [stripPieces ps] }

/-- `'\n'.join(result)`: the groups of pieces separated by raw newlines. -/
def joinGroups : List (List Piece) → List Piece
  | [] => []
  | [g] => g
  | g :: rest => g ++ [Piece.raw "\n"] ++ joinGroups rest

/-- `colorize_doctestblock(s, markup_func)` in block mode with the default
`strip_directives=True`, emitting pieces instead of markup text. -/
def colorize_doctestblock (builtins : List String) (s : String) : List Piece :=
  let s := stripDirectives s
  let lines := splitOnNl s ++ ["\n"]
  let st := lines.foldl (processLine builtins) ⟨[], [], [], []⟩
  let remainder := pyRStrip (joinNl st.pyout)
  let groups :=
    if remainder.isEmpty then st.result
    else st.result ++ [[Piece.span "output" remainder]]
  joinGroups groups

/-- Inline mode (`inline=True`): tokenize the whole text, flush, strip. -/
def colorize_inline (builtins : List String) (s : String) : List Piece :=
  let s := stripDirectives s
  stripPieces (subPiecesSt builtins [] s).1

/-- The spans (markup calls) of a piece list, raw text dropped. -/
def spansOf (ps : List Piece) : List Piece :=
  ps.filter fun p => match p with | Piece.span _ _ => true | Piece.raw _ => false

/-- The spans carrying a given tag. -/
def spansTagged (tag : String) (ps : List Piece) : List Piece :=
  ps.filter fun p => match p with | Piece.span t _ => t = tag | Piece.raw _ => false

end Rst

namespace Rst

/-! ## Claims C3 and C6: colorizer behaviour on the two specified inputs -/

/-- The C3 input. -/
def c3Input : String :=
  ">>> raise ValueError()\nTraceback (most recent call last):\n...\nValueError"

/-- The C6 input. -/
def c6Input : String := ">>> x = 1\n1"

/-- C3 (counterexample): the claim — no `output` span and exactly one
exception-trace span covering everything from the `Traceback` line to the
end of the input — is false for the block-mode colorizer on
`">>> raise ValueError()\nTraceback (most recent call last):\n...\nValueError"`:
the `...` line matches the continuation-prompt pattern, so the code emits
an `output` span `"ValueError"` and an `except` span covering only the
`Traceback` line. -/
theorem c3_counterexample :
    ¬ (spansTagged "output" (colorize_doctestblock pyBuiltins c3Input) = [] ∧
       spansTagged "except" (colorize_doctestblock pyBuiltins c3Input) =
         [Piece.span "except"
            "Traceback (most recent call last):\n...\nValueError"]) := by
  decide

/-- C3 (amended): on the C3 input the `...` line inside the traceback
matches the continuation-prompt pattern, so the block is split there: the
exception-trace span covers only the `Traceback (most recent call last):`
line, the `...` line is emitted as a continuation (`more`) span (preceded
by a re-emission of the stale `other` buffer `"()"`), and the trailing
`ValueError` line is flushed at end-of-input as an `output` span. -/
theorem c3_amended :
    colorize_doctestblock pyBuiltins c3Input =
      [Piece.span "prompt" ">>> ", Piece.span "keyword" "raise",
       Piece.raw " ", Piece.span "builtin" "ValueError",
       Piece.span "other" "()", Piece.raw "\n",
       Piece.span "except" "Traceback (most recent call last):",
       Piece.raw "\n", Piece.span "other" "()", Piece.span "more" "...",
       Piece.raw "\n", Piece.span "output" "ValueError"] := by
  decide

/-- C6 (counterexample): the claim — exactly three spans
`[prompt ">>> ", plain "x = 1", output "1"]` — is false: each whitespace
character flushes the `other` aggregation buffer, so `x = 1` is emitted as
three separate plain (`other`) spans, not one. -/
theorem c6_counterexample :
    ¬ spansOf (colorize_doctestblock pyBuiltins c6Input) =
        [Piece.span "prompt" ">>> ", Piece.span "other" "x = 1",
         Piece.span "output" "1"] := by
  decide

/-- C6 (amended): on `">>> x = 1\n1"` the colorizer emits a prompt span
`">>> "`, three plain (`other`) spans `"x"`, `"="`, `"1"` separated by
uncoloured whitespace (batching merges only contiguous non-whitespace
untagged characters), and an `output` span `"1"`. -/
theorem c6_amended :
    colorize_doctestblock pyBuiltins c6Input =
      [Piece.span "prompt" ">>> ", Piece.span "other" "x",
       Piece.raw " ", Piece.span "other" "=", Piece.raw " ",
       Piece.span "other" "1", Piece.raw "\n",
       Piece.span "output" "1"] := by
  decide

end Rst

namespace Rst

/-! ## Numbering engine (`NumberingVisitor`)

The visitor's behaviour factors through the sequence of node
enter/leave events it receives in document order, so a document tree is
embedded as its token stream (`List Tok`); `BalancedDoc` characterises
the streams arising from actual trees.  Tree mutations whose only
observable effect for the claims is the text they attach (figure/table
captions via `label_node`, the generated section-number label, the
raw-LaTeX counter directives inserted by `prepend_raw_latex`, and the
sub-example splicing of `depart_example`) are recorded as `Event`s. -/

/-- `NumberingVisitor.LETTERS`. -/
def LETTERS : List Char := "abcdefghijklmnopqrstuvwxyz".data

/-- The first ten entries of `NumberingVisitor.ROMAN`. -/
def ROMAN10 : List String :=
  ["i", "ii", "iii", "iv", "v", "vi", "vii", "viii", "ix", "x"]

/-- `NumberingVisitor.ROMAN`: the first ten, then each prefixed by `x`. -/
def ROMAN : List String := ROMAN10 ++ ROMAN10.map (fun r => "x" ++ r)

/-- The section context (`body`/`preface`/`appendix`). -/
inductive Ctx where
  | body
  | preface
  | appendix
deriving DecidableEq, Repr

/-- `NumberingVisitor.TOP_SECTION` (its default; `main()` switches it to
`'section'` only for `--documentclass article`). -/
def TOP_SECTION : String := "chapter"

/-- Python `l[-1] = f(l[-1])` (an `IndexError` on `[]`, unreachable on
balanced documents). -/
def setLast (l : List Int) (f : Int → Int) : List Int :=
  match l with
  | [] => []
  | [x] => [f x]
  | x :: rest => x :: setLast rest f

/-- Python `l[0] = a`. -/
def setHead {α : Type} (l : List α) (a : α) : List α :=
  match l with
  | [] => []
  | _ :: rest => a :: rest

/-- Python `'.'.join`. -/
def joinDot : List String → String
  | [] => ""
  | [p] => p
  | p :: ps => p ++ "." ++ joinDot ps

def pyUpper (s : String) : String := String.mk (s.data.map Char.toUpper)

/-- `NumberingVisitor.format_section_num(depth)`: the counters rendered
per the section context (arabic / uppercase roman / uppercase letter for
the first counter), dot-joined, optionally truncated to `depth`. -/
def format_section_num (ctx : Ctx) (section_num : List Int) (depth : Option Nat) : String :=
  let pieces := section_num.map (fun p => toString p)
  let pieces :=
    match ctx with
    | .body => setHead pieces (toString (pyGetD section_num 0 0))
    | .preface => setHead pieces (pyUpper (pyGetD ROMAN (pyGetD section_num 0 0 - 1) ""))
    | .appendix =>
      setHead pieces (pyUpper (String.mk [pyGetD LETTERS (pyGetD section_num 0 0 - 1) 'z']))
  match depth with
  | none => joinDot pieces
  | some d => joinDot (pieces.take d)

def concatAll (ls : List String) : String := ls.foldl (fun a b => a ++ b) ""

/-- `NumberingVisitor.format_example_num`: `(1)`, `(1a)`, `(1a.i)`, …. -/
def format_example_num (example_num : List Int) : String :=
  let exNum := toString (pyGetD example_num 0 0)
  let exNum :=
    if example_num.length > 1 then
      exNum ++ String.mk [pyGetD LETTERS (pyGetD example_num 1 0 - 1) 'z']
    else exNum
  let exNum :=
    if example_num.length > 2 then
      exNum ++ "." ++ pyGetD ROMAN (pyGetD example_num 2 0 - 1) ""
    else exNum
  let exNum :=
    exNum ++ concatAll ((example_num.drop 3).map (fun n => "." ++ toString n))
  "(" ++ exNum ++ ")"

/-- Python `s.split(sep)` for a one-character separator. -/
def splitCharL (sep : Char) : List Char → List (List Char)
  | [] => [[]]
  | c :: rest =>
    if c = sep then [] :: splitCharL sep rest
    else match splitCharL sep rest with
      | g :: gs => (c :: g) :: gs
      | [] => [[c]]

/-- The value of a digit string.  The source applies Python `int()` to
each `'.'`-separated piece of the matched group; on a non-numeric piece
(reachable because the `.` in `(\d+(.\d+)*)` is unescaped and matches any
character) `int()` raises an uncaught `ValueError`, aborting the build;
this model returns `0` there and every theorem below restricts to numeric
pieces. -/
def pyIntParse (cs : List Char) : Int :=
  if ¬ cs.isEmpty ∧ cs.all isDigitChar then
    (cs.foldl (fun a c => a * 10 + (c.toNat - '0'.toNat)) 0 : Nat)
  else 0

/-- The `\.?\s+` tail of the explicit-section-number pattern, greedy;
returns the number of characters it consumes. -/
def expFinish (cs : List Char) : Option Nat :=
  match cs with
  | '.' :: rest =>
    let ws := rest.takeWhile isPySpace
    if ws.isEmpty then none else some (1 + ws.length)
  | _ =>
    let ws := cs.takeWhile isPySpace
    if ws.isEmpty then none else some ws.length

/-- The `(.\d+)*` loop of the explicit-section-number pattern (the `.` is
the source's unescaped any-character), greedy with backtracking, followed
by `\.?\s+`.  Returns (extra characters of group 1, total characters
consumed from this position). -/
def expLoopAux : Nat → List Char → Option (Nat × Nat)
  | 0, _ => none
  | _ + 1, [] => none
  | fuel + 1, c :: rest =>
    let fallback := (expFinish (c :: rest)).map (fun f => ((0 : Nat), f))
    if c = '\n' then fallback
    else
      let ds := rest.takeWhile isDigitChar
      if ds.isEmpty then fallback
      else
        match expLoopAux fuel (rest.drop ds.length) with
        | some (g, t) => some (1 + ds.length + g, 1 + ds.length + t)
        | none => fallback

def expLoop (cs : List Char) : Option (Nat × Nat) := expLoopAux (cs.length + 1) cs

/-- `re.match(r'(\d+(.\d+)*)\.?\s+', title)`: `some (group(1), m.end())`
when the title begins with an explicit section number. -/
def explicitNumMatch (title : String) : Option (String × Nat) :=
  let cs := title.data
  let d0 := cs.takeWhile isDigitChar
  if d0.isEmpty then none
  else
    match expLoop (cs.drop d0.length) with
    | some (g, t) => some (String.mk (cs.take (d0.length + g)), d0.length + t)
    | none => none

/-- The mutable state of one `NumberingVisitor` traversal. -/
structure NVState where
  reference_labels : List (String × String)
  figure_num : Nat
  table_num : Nat
  example_num : List Int
  section_num : List Int
  set_section_context : Option Ctx
  section_context : Ctx
deriving DecidableEq, Repr

def initNVState : NVState :=
  { reference_labels := [], figure_num := 0, table_num := 0,
    example_num := [0], section_num := [0],
    set_section_context := none, section_context := .body }

/-- The node enter/leave events a document tree feeds to the visitor, in
document order. -/
inductive Tok where
  | sec (titleText : String) (ids : List String)
  | secEnd
  | fig (anchors : List String)
  | tab (anchors : List String)
  | ex (anchors : List String)
  | exEnd
  | ctxTok (c : Ctx)
deriving DecidableEq, Repr

/-- The observable tree mutations of the traversal. -/
inductive Event where
  | figLabel (sec : String) (k : Nat)
  | tabLabel (sec : String) (k : Nat)
  | exLabel (lbl : String)
  | secLabel (sectnum : String) (titleAfter : String)
  | rawTex (s : String)
  | errMsg (msg : String)
  | spliced
deriving DecidableEq, Repr

def contextStyle : Ctx → String
  | .preface => "Roman"
  | .body => "arabic"
  | .appendix => "Alph"

/-- The raw LaTeX emitted by `start_new_context`. -/
def contextRawLatex (ctx : Ctx) : String :=
  let base :=
    "\n\\setcounter\x7b" ++ TOP_SECTION ++ "\x7d\x7b0\x7d\n" ++
    "\\renewcommand \\the" ++ TOP_SECTION ++ "\x7b\\" ++ contextStyle ctx ++
    "\x7b" ++ TOP_SECTION ++ "\x7d\x7d\n"
  if ctx = .appendix then base ++ "\\appendix\n" else base

/-- `NumberingVisitor.visit_figure`. -/
def visitFigure (s : NVState) (anchors : List String) : NVState × List Event :=
  let fn := s.figure_num + 1
  let sec := format_section_num s.section_context s.section_num (some 1)
  let num := sec ++ "." ++ toString fn
  ({ s with figure_num := fn,
            reference_labels := s.reference_labels ++ anchors.map (fun a => (a, num)) },
   [Event.figLabel sec fn])

/-- `NumberingVisitor.visit_table`. -/
def visitTable (s : NVState) (anchors : List String) : NVState × List Event :=
  let tn := s.table_num + 1
  let sec := format_section_num s.section_context s.section_num (some 1)
  let num := sec ++ "." ++ toString tn
  ({ s with table_num := tn,
            reference_labels := s.reference_labels ++ anchors.map (fun a => (a, num)) },
   [Event.tabLabel sec tn])

/-- `NumberingVisitor.visit_section`.  The title is modelled as its text
(`title.children[0]` is a `Text` node); the generated sectnum label node
inserted into the title for non-LaTeX non-preface output is tree-only and
is carried by the `secLabel` event. -/
def visitSection (s : NVState) (title : String) (ids : List String) : NVState × List Event :=
  let st1 :=
    if s.section_num.length = 1 ∧ s.set_section_context.isSome then
      let ctx := s.set_section_context.getD .body
      ({ s with section_context := ctx, set_section_context := none,
                section_num := setHead s.section_num 0 },
       [Event.rawTex (contextRawLatex ctx)])
    else (s, ([] : List Event))
  let s := st1.1
  let s := { s with section_num := setLast s.section_num (fun x => x + 1) }
  let st2 :=
    match explicitNumMatch title with
    | some (g1, mend) =>
      let pieces := (splitCharL '.' g1.data).map pyIntParse
      let st3 :=
        if pieces.length = s.section_num.length then
          ({ s with section_num := pieces }, String.mk (title.data.drop mend),
           ([] : List Event))
        else (s, title, [Event.errMsg "Error: section depth mismatch"])
      (st3.1, st3.2.1,
       st3.2.2 ++ [Event.rawTex ("\\setcounter\x7b" ++ TOP_SECTION ++ "\x7d\x7b" ++
         toString (pyGetD st3.1.section_num 0 0 - 1) ++ "\x7d")])
    | none => (s, title, ([] : List Event))
  let s := st2.1
  let title := st2.2.1
  let sectnum := format_section_num s.section_context s.section_num none
  let s := { s with
             reference_labels := s.reference_labels ++ ids.map (fun i => (i, sectnum)) }
  let s := { s with section_num := s.section_num ++ [0] }
  (s, st1.2 ++ st2.2.2 ++ [Event.secLabel sectnum title])

/-- `NumberingVisitor.depart_section`. -/
def departSection (s : NVState) : NVState × List Event :=
  ({ s with section_num := s.section_num.dropLast }, [])

/-- `NumberingVisitor.visit_example`. -/
def visitExample (s : NVState) (anchors : List String) : NVState × List Event :=
  let en := setLast s.example_num (fun x => x + 1)
  let lbl := format_example_num en
  ({ s with example_num := en ++ [0],
            reference_labels := s.reference_labels ++ anchors.map (fun a => (a, lbl)) },
   [Event.exLabel lbl])

/-- `NumberingVisitor.depart_example`: sub-example splicing is the
`spliced` event; then the counter is popped. -/
def departExample (s : NVState) : NVState × List Event :=
  let evs : List Event := if pyGetD s.example_num (-1) 0 > 0 then [Event.spliced] else []
  ({ s with example_num := s.example_num.dropLast }, evs)

/-- `NumberingVisitor.visit_section_context` (the `preface`/`body`/
`appendix` marker directive; the marker node removes itself). -/
def visitSectionContext (s : NVState) (c : Ctx) : NVState × List Event :=
  ({ s with set_section_context := some c }, [])

/-- Dispatch one node event. -/
def stepTok (s : NVState) : Tok → NVState × List Event
  | .sec title ids => visitSection s title ids
  | .secEnd => departSection s
  | .fig anchors => visitFigure s anchors
  | .tab anchors => visitTable s anchors
  | .ex anchors => visitExample s anchors
  | .exEnd => departExample s
  | .ctxTok c => visitSectionContext s c

/-- The whole `walkabout` of `NumberingVisitor` over a token stream. -/
def runNV (s : NVState) : List Tok → NVState × List Event
  | [] => (s, [])
  | t :: rest =>
    let r1 := stepTok s t
    let r2 := runNV r1.1 rest
    (r2.1, r1.2 ++ r2.2)

/-- Well-nestedness of a token stream: enter/leave events of sections and
examples are balanced and never go below depth zero — exactly the streams
produced by document trees. -/
def balancedAux : Nat → Nat → List Tok → Bool
  | sd, ed, [] => sd = 0 ∧ ed = 0
  | sd, ed, t :: rest =>
    match t with
    | .sec _ _ => balancedAux (sd + 1) ed rest
    | .secEnd => sd > 0 ∧ balancedAux (sd - 1) ed rest
    | .ex _ => balancedAux sd (ed + 1) rest
    | .exEnd => ed > 0 ∧ balancedAux sd (ed - 1) rest
    | _ => balancedAux sd ed rest

def BalancedDoc (toks : List Tok) : Bool := balancedAux 0 0 toks

end Rst

namespace Rst

/-! ## Claim C2: example numbering -/

/-- Modelled from the spec: the `n`-th lowercase letter. -/
def specLetter (n : Nat) : String := String.mk [Char.ofNat ('a'.toNat + (n - 1))]

/-- Modelled from the spec: `n` in lowercase roman numerals (greedy
subtractive algorithm; fuel `n` always suffices). -/
def specRomanAux : Nat → Nat → String
  | 0, _ => ""
  | fuel + 1, n =>
    if 10 ≤ n then "x" ++ specRomanAux fuel (n - 10)
    else if 9 ≤ n then "ix" ++ specRomanAux fuel (n - 9)
    else if 5 ≤ n then "v" ++ specRomanAux fuel (n - 5)
    else if 4 ≤ n then "iv" ++ specRomanAux fuel (n - 4)
    else if 1 ≤ n then "i" ++ specRomanAux fuel (n - 1)
    else ""

def specRoman (n : Nat) : String := specRomanAux n n

/-- Modelled from the spec: the example label built from per-depth
alphabets — depth 0 arabic, depth 1 lowercase letter (unseparated),
depth 2 lowercase roman (dot-separated), depth ≥ 3 arabic
(dot-separated), wrapped in parentheses. -/
def specExampleLabel : List Int → String
  | [] => "()"
  | [a] => "(" ++ toString a ++ ")"
  | [a, b] => "(" ++ toString a ++ specLetter b.toNat ++ ")"
  | a :: b :: c :: rest =>
    "(" ++ toString a ++ specLetter b.toNat ++ "." ++ specRoman c.toNat ++
      concatAll (rest.map (fun n => "." ++ toString n)) ++ ")"

theorem pyGetD_zero {α : Type} (x : α) (l : List α) (d : α) :
    pyGetD (x :: l) 0 d = x := by
  simp [pyGetD]

theorem pyGetD_one {α : Type} (x y : α) (l : List α) (d : α) :
    pyGetD (x :: y :: l) 1 d = y := by
  simp [pyGetD]

theorem pyGetD_two {α : Type} (x y z : α) (l : List α) (d : α) :
    pyGetD (x :: y :: z :: l) 2 d = z := by
  simp [pyGetD]

theorem letters_eq_specLetter :
    ∀ b : Nat, b < 27 → 1 ≤ b →
      String.mk [pyGetD LETTERS ((b : Int) - 1) 'z'] = specLetter b := by
  decide

theorem roman_eq_specRoman :
    ∀ c : Nat, c < 21 → 1 ≤ c →
      pyGetD ROMAN ((c : Int) - 1) "" = specRoman c := by
  decide

/-- The C2 document: an example containing a sub-example containing a
sub-sub-example, then a second top-level example. -/
def c2Doc : List Tok :=
  [.ex [], .ex [], .ex [], .exEnd, .exEnd, .exEnd, .ex [], .exEnd]

/-- The example labels among a traversal's events. -/
def exLabelsOf (evs : List Event) : List String :=
  evs.filterMap fun e => match e with | Event.exLabel l => some l | _ => none

/-- C2: example labels are built from depth-indexed counters with
per-depth alphabets — depth 0 arabic, depth 1 lowercase letter
(unseparated), depth 2 lowercase roman (dot-separated), depth ≥ 3 arabic
(dot-separated), wrapped in parentheses (proved against the spec-side
`specExampleLabel` for every in-range counter stack); and the first
example of a document is labeled `(1)`, its first nested sub-example
`(1a)`, that one's first nested sub-example `(1a.i)`, and a second
top-level example `(2)`. -/
theorem c2_example_numbering :
    (∀ a : Int, format_example_num [a] = specExampleLabel [a]) ∧
    (∀ (a : Int) (b : Nat), 1 ≤ b → b ≤ 26 →
       format_example_num [a, (b : Int)] = specExampleLabel [a, (b : Int)]) ∧
    (∀ (a : Int) (b c : Nat) (rest : List Int), 1 ≤ b → b ≤ 26 → 1 ≤ c → c ≤ 20 →
       format_example_num (a :: (b : Int) :: (c : Int) :: rest) =
         specExampleLabel (a :: (b : Int) :: (c : Int) :: rest)) ∧
    exLabelsOf (runNV initNVState c2Doc).2 = ["(1)", "(1a)", "(1a.i)", "(2)"] := by
  refine ⟨?_, ?_, ?_, ?_⟩
  · intro a
    simp [format_example_num, specExampleLabel, pyGetD_zero, concatAll,
          String.append_assoc, String.append_empty]
  · intro a b hb1 hb26
    have hl := letters_eq_specLetter b (by omega) hb1
    simp only [format_example_num, specExampleLabel, pyGetD_zero, pyGetD_one,
               concatAll, List.length_cons, List.length_nil, List.drop,
               List.map_nil, List.foldl]
    norm_num
    rw [hl]
    simp [String.append_assoc, String.append_empty, Int.toNat_natCast]
  · intro a b c rest hb1 hb26 hc1 hc20
    have hl := letters_eq_specLetter b (by omega) hb1
    have hr := roman_eq_specRoman c (by omega) hc1
    simp only [format_example_num, specExampleLabel, pyGetD_zero, pyGetD_one,
               pyGetD_two, concatAll, List.length_cons, List.drop]
    norm_num
    rw [hl, hr]
    simp [String.append_assoc, String.append_empty, Int.toNat_natCast]
  · decide

end Rst

namespace Rst

theorem c2_example_numbering_witness :
    (format_example_num [(1 : Int)] = specExampleLabel [(1 : Int)]) ∧
    (format_example_num [1, ((1 : Nat) : Int)] = specExampleLabel [1, ((1 : Nat) : Int)]) ∧
    (format_example_num (1 :: ((1 : Nat) : Int) :: ((1 : Nat) : Int) :: []) =
       specExampleLabel (1 :: ((1 : Nat) : Int) :: ((1 : Nat) : Int) :: [])) :=
  ⟨c2_example_numbering.1 1,
   c2_example_numbering.2.1 1 1 (by decide) (by decide),
   c2_example_numbering.2.2.1 1 1 1 [] (by decide) (by decide) (by decide) (by decide)⟩

/-! ## Claim C4: figure and table counters -/

/-- The `k` components of the figure labels (`<sec>.<k>`) in event order. -/
def figKs (evs : List Event) : List Nat :=
  evs.filterMap fun e => match e with | Event.figLabel _ k => some k | _ => none

def tabKs (evs : List Event) : List Nat :=
  evs.filterMap fun e => match e with | Event.tabLabel _ k => some k | _ => none

/-- The complete figure-label events (section prefix and counter). -/
def figEvents (evs : List Event) : List Event :=
  evs.filter fun e => match e with | Event.figLabel _ _ => true | _ => false

def tabEvents (evs : List Event) : List Event :=
  evs.filter fun e => match e with | Event.tabLabel _ _ => true | _ => false

def isFigTok : Tok → Bool
  | .fig _ => true
  | _ => false

def isTabTok : Tok → Bool
  | .tab _ => true
  | _ => false

/-- Erase all table nodes from a document (for the independence half of
C4); `eraseFigures` symmetrically. -/
def eraseTables (toks : List Tok) : List Tok := toks.filter fun t => ¬ isTabTok t

def eraseFigures (toks : List Tok) : List Tok := toks.filter fun t => ¬ isFigTok t

theorem runNV_append (s : NVState) (a b : List Tok) :
    runNV s (a ++ b) =
      ((runNV (runNV s a).1 b).1, (runNV s a).2 ++ (runNV (runNV s a).1 b).2) := by
  induction a generalizing s with
  | nil => simp [runNV]
  | cons t rest ih => simp [runNV, ih, List.append_assoc]

/-- Per-token characterisation of the figure-label events and counter. -/
theorem stepTok_figKs (s : NVState) (t : Tok) :
    figKs (stepTok s t).2 = (if isFigTok t then [s.figure_num + 1] else []) ∧
    (stepTok s t).1.figure_num = (if isFigTok t then s.figure_num + 1 else s.figure_num) := by
  cases t with
  | fig anchors => simp [stepTok, visitFigure, figKs, isFigTok]
  | tab anchors => simp [stepTok, visitTable, figKs, isFigTok]
  | sec title ids =>
    unfold stepTok visitSection
    dsimp only
    repeat' split
    all_goals simp_all [figKs, isFigTok]
  | secEnd => simp [stepTok, departSection, figKs, isFigTok]
  | ex anchors => simp [stepTok, visitExample, figKs, isFigTok]
  | exEnd =>
    unfold stepTok departExample
    dsimp only
    repeat' split
    all_goals simp_all [figKs, isFigTok]
  | ctxTok c => simp [stepTok, visitSectionContext, figKs, isFigTok]

/-- Per-token characterisation of the table-label events and counter. -/
theorem stepTok_tabKs (s : NVState) (t : Tok) :
    tabKs (stepTok s t).2 = (if isTabTok t then [s.table_num + 1] else []) ∧
    (stepTok s t).1.table_num = (if isTabTok t then s.table_num + 1 else s.table_num) := by
  cases t with
  | fig anchors => simp [stepTok, visitFigure, tabKs, isTabTok]
  | tab anchors => simp [stepTok, visitTable, tabKs, isTabTok]
  | sec title ids =>
    unfold stepTok visitSection
    dsimp only
    repeat' split
    all_goals simp_all [tabKs, isTabTok]
  | secEnd => simp [stepTok, departSection, tabKs, isTabTok]
  | ex anchors => simp [stepTok, visitExample, tabKs, isTabTok]
  | exEnd =>
    unfold stepTok departExample
    dsimp only
    repeat' split
    all_goals simp_all [tabKs, isTabTok]
  | ctxTok c => simp [stepTok, visitSectionContext, tabKs, isTabTok]

theorem figKs_append (a b : List Event) : figKs (a ++ b) = figKs a ++ figKs b := by
  simp [figKs, List.filterMap_append]

theorem tabKs_append (a b : List Event) : tabKs (a ++ b) = tabKs a ++ tabKs b := by
  simp [tabKs, List.filterMap_append]

/-- Helper: the `k` components of figure labels are the consecutive
integers continuing from the incoming figure counter, one per figure
token, for any token stream. -/
theorem figKs_runNV (toks : List Tok) : ∀ s : NVState,
    figKs (runNV s toks).2 = List.range' (s.figure_num + 1) (toks.countP isFigTok) ∧
    (runNV s toks).1.figure_num = s.figure_num + toks.countP isFigTok := by
  induction toks with
  | nil => intro s; simp [runNV, figKs]
  | cons t rest ih =>
    intro s
    obtain ⟨ih1, ih2⟩ := ih (stepTok s t).1
    obtain ⟨f1, f2⟩ := stepTok_figKs s t
    show figKs ((stepTok s t).2 ++ (runNV (stepTok s t).1 rest).2) = _ ∧ _
    rw [figKs_append, f1, ih1, f2]
    show _ ∧ (runNV (stepTok s t).1 rest).1.figure_num = _
    rw [ih2, f2]
    by_cases hf : isFigTok t = true
    · simp [hf, List.countP_cons, List.range'_succ]
      omega
    · simp [hf, List.countP_cons]

theorem tabKs_runNV (toks : List Tok) : ∀ s : NVState,
    tabKs (runNV s toks).2 = List.range' (s.table_num + 1) (toks.countP isTabTok) ∧
    (runNV s toks).1.table_num = s.table_num + toks.countP isTabTok := by
  induction toks with
  | nil => intro s; simp [runNV, tabKs]
  | cons t rest ih =>
    intro s
    obtain ⟨ih1, ih2⟩ := ih (stepTok s t).1
    obtain ⟨f1, f2⟩ := stepTok_tabKs s t
    show tabKs ((stepTok s t).2 ++ (runNV (stepTok s t).1 rest).2) = _ ∧ _
    rw [tabKs_append, f1, ih1, f2]
    show _ ∧ (runNV (stepTok s t).1 rest).1.table_num = _
    rw [ih2, f2]
    by_cases hf : isTabTok t = true
    · simp [hf, List.countP_cons, List.range'_succ]
      omega
    · simp [hf, List.countP_cons]

end Rst

namespace Rst

/-- State correspondence for erasing tables: all fields agree except the
table counter and the label table. -/
def SimT (s₁ s₂ : NVState) : Prop :=
  s₁.figure_num = s₂.figure_num ∧ s₁.example_num = s₂.example_num ∧
  s₁.section_num = s₂.section_num ∧ s₁.set_section_context = s₂.set_section_context ∧
  s₁.section_context = s₂.section_context

/-- State correspondence for erasing figures. -/
def SimF (s₁ s₂ : NVState) : Prop :=
  s₁.table_num = s₂.table_num ∧ s₁.example_num = s₂.example_num ∧
  s₁.section_num = s₂.section_num ∧ s₁.set_section_context = s₂.set_section_context ∧
  s₁.section_context = s₂.section_context

/-- No visit reads the table counter or the label table, so `SimT`-related
states step to identical events and `SimT`-related states on every
non-table token. -/
theorem stepTok_simT (s₁ s₂ : NVState) (t : Tok) (h : SimT s₁ s₂)
    (ht : ¬ isTabTok t = true) :
    (stepTok s₁ t).2 = (stepTok s₂ t).2 ∧ SimT (stepTok s₁ t).1 (stepTok s₂ t).1 := by
  obtain ⟨h1, h2, h3, h4, h5⟩ := h
  cases t with
  | fig anchors => simp_all [stepTok, visitFigure, SimT]
  | tab anchors => simp [isTabTok] at ht
  | sec title ids =>
    simp only [stepTok, visitSection, h3, h4, h5]
    repeat' split
    all_goals simp_all [SimT]
  | secEnd => simp_all [stepTok, departSection, SimT]
  | ex anchors => simp_all [stepTok, visitExample, SimT]
  | exEnd =>
    simp only [stepTok, departExample, h2]
    simp_all [SimT]
  | ctxTok c => simp_all [stepTok, visitSectionContext, SimT]

theorem stepTok_simF (s₁ s₂ : NVState) (t : Tok) (h : SimF s₁ s₂)
    (ht : ¬ isFigTok t = true) :
    (stepTok s₁ t).2 = (stepTok s₂ t).2 ∧ SimF (stepTok s₁ t).1 (stepTok s₂ t).1 := by
  obtain ⟨h1, h2, h3, h4, h5⟩ := h
  cases t with
  | fig anchors => simp [isFigTok] at ht
  | tab anchors => simp_all [stepTok, visitTable, SimF]
  | sec title ids =>
    simp only [stepTok, visitSection, h3, h4, h5]
    repeat' split
    all_goals simp_all [SimF]
  | secEnd => simp_all [stepTok, departSection, SimF]
  | ex anchors => simp_all [stepTok, visitExample, SimF]
  | exEnd =>
    simp only [stepTok, departExample, h2]
    simp_all [SimF]
  | ctxTok c => simp_all [stepTok, visitSectionContext, SimF]

/-- Stepping a table leaves everything `SimT` cares about unchanged and
emits no figure-label event. -/
theorem stepTok_tab_simT (s₁ s₂ : NVState) (anchors : List String) (h : SimT s₁ s₂) :
    SimT s₁ (stepTok s₂ (Tok.tab anchors)).1 ∧
    figEvents (stepTok s₂ (Tok.tab anchors)).2 = [] := by
  obtain ⟨h1, h2, h3, h4, h5⟩ := h
  simp_all [stepTok, visitTable, SimT, figEvents]

theorem stepTok_fig_simF (s₁ s₂ : NVState) (anchors : List String) (h : SimF s₁ s₂) :
    SimF s₁ (stepTok s₂ (Tok.fig anchors)).1 ∧
    tabEvents (stepTok s₂ (Tok.fig anchors)).2 = [] := by
  obtain ⟨h1, h2, h3, h4, h5⟩ := h
  simp_all [stepTok, visitFigure, SimF, tabEvents]

theorem figEvents_append (a b : List Event) :
    figEvents (a ++ b) = figEvents a ++ figEvents b := by
  simp [figEvents, List.filter_append]

theorem tabEvents_append (a b : List Event) :
    tabEvents (a ++ b) = tabEvents a ++ tabEvents b := by
  simp [tabEvents, List.filter_append]

/-- Erasing all tables from a document does not change the figure-label
events. -/
theorem eraseTables_figEvents (toks : List Tok) : ∀ s₁ s₂ : NVState, SimT s₁ s₂ →
    figEvents (runNV s₁ (eraseTables toks)).2 = figEvents (runNV s₂ toks).2 ∧
    SimT (runNV s₁ (eraseTables toks)).1 (runNV s₂ toks).1 := by
  induction toks with
  | nil => intro s₁ s₂ h; simpa [runNV, eraseTables, figEvents] using h
  | cons t rest ih =>
    intro s₁ s₂ h
    by_cases htab : isTabTok t = true
    · obtain ⟨anchors⟩ : ∃ a, t = Tok.tab a := by
        cases t <;> simp_all [isTabTok]
      subst_vars
      have herase : eraseTables (Tok.tab anchors :: rest) = eraseTables rest := by
        simp [eraseTables, isTabTok]
      obtain ⟨hsim, hev⟩ := stepTok_tab_simT s₁ s₂ anchors h
      obtain ⟨ih1, ih2⟩ := ih s₁ (stepTok s₂ (Tok.tab anchors)).1 hsim
      rw [herase]
      constructor
      · show figEvents (runNV s₁ (eraseTables rest)).2 =
          figEvents ((stepTok s₂ (Tok.tab anchors)).2 ++ (runNV (stepTok s₂ (Tok.tab anchors)).1 rest).2)
        rw [figEvents_append, hev, ih1]
        simp
      · exact ih2
    · have herase : eraseTables (t :: rest) = t :: eraseTables rest := by
        simp [eraseTables, htab]
      obtain ⟨hev, hsim⟩ := stepTok_simT s₁ s₂ t h htab
      obtain ⟨ih1, ih2⟩ := ih (stepTok s₁ t).1 (stepTok s₂ t).1 hsim
      rw [herase]
      refine ⟨?_, ih2⟩
      show figEvents ((stepTok s₁ t).2 ++ (runNV (stepTok s₁ t).1 (eraseTables rest)).2) =
        figEvents ((stepTok s₂ t).2 ++ (runNV (stepTok s₂ t).1 rest).2)
      rw [figEvents_append, figEvents_append, hev, ih1]

/-- Erasing all figures from a document does not change the table-label
events. -/
theorem eraseFigures_tabEvents (toks : List Tok) : ∀ s₁ s₂ : NVState, SimF s₁ s₂ →
    tabEvents (runNV s₁ (eraseFigures toks)).2 = tabEvents (runNV s₂ toks).2 ∧
    SimF (runNV s₁ (eraseFigures toks)).1 (runNV s₂ toks).1 := by
  induction toks with
  | nil => intro s₁ s₂ h; simpa [runNV, eraseFigures, tabEvents] using h
  | cons t rest ih =>
    intro s₁ s₂ h
    by_cases hfig : isFigTok t = true
    · obtain ⟨anchors⟩ : ∃ a, t = Tok.fig a := by
        cases t <;> simp_all [isFigTok]
      subst_vars
      have herase : eraseFigures (Tok.fig anchors :: rest) = eraseFigures rest := by
        simp [eraseFigures, isFigTok]
      obtain ⟨hsim, hev⟩ := stepTok_fig_simF s₁ s₂ anchors h
      obtain ⟨ih1, ih2⟩ := ih s₁ (stepTok s₂ (Tok.fig anchors)).1 hsim
      rw [herase]
      constructor
      · show tabEvents (runNV s₁ (eraseFigures rest)).2 =
          tabEvents ((stepTok s₂ (Tok.fig anchors)).2 ++ (runNV (stepTok s₂ (Tok.fig anchors)).1 rest).2)
        rw [tabEvents_append, hev, ih1]
        simp
      · exact ih2
    · have herase : eraseFigures (t :: rest) = t :: eraseFigures rest := by
        simp [eraseFigures, hfig]
      obtain ⟨hev, hsim⟩ := stepTok_simF s₁ s₂ t h hfig
      obtain ⟨ih1, ih2⟩ := ih (stepTok s₁ t).1 (stepTok s₂ t).1 hsim
      rw [herase]
      refine ⟨?_, ih2⟩
      show tabEvents ((stepTok s₁ t).2 ++ (runNV (stepTok s₁ t).1 (eraseFigures rest)).2) =
        tabEvents ((stepTok s₂ t).2 ++ (runNV (stepTok s₂ t).1 rest).2)
      rw [tabEvents_append, tabEvents_append, hev, ih1]

end Rst

namespace Rst

/-- C4: for every document, the figure and table counters are independent
scalars — each figure/table label's counter component is the node's
1-based rank in document order (`List.range'`), continuing across section
boundaries without reset — and the complete figure-label events
(section prefix and counter) are unchanged if all tables are erased from
the document, and symmetrically for tables. -/
theorem c4_figure_table_counters (toks : List Tok) (_hbal : BalancedDoc toks = true)
    (s : NVState) :
    (figKs (runNV s toks).2 = List.range' (s.figure_num + 1) (toks.countP isFigTok) ∧
     (runNV s toks).1.figure_num = s.figure_num + toks.countP isFigTok) ∧
    (tabKs (runNV s toks).2 = List.range' (s.table_num + 1) (toks.countP isTabTok) ∧
     (runNV s toks).1.table_num = s.table_num + toks.countP isTabTok) ∧
    figEvents (runNV s (eraseTables toks)).2 = figEvents (runNV s toks).2 ∧
    tabEvents (runNV s (eraseFigures toks)).2 = tabEvents (runNV s toks).2 :=
  ⟨figKs_runNV toks s, tabKs_runNV toks s,
   (eraseTables_figEvents toks s s ⟨rfl, rfl, rfl, rfl, rfl⟩).1,
   (eraseFigures_tabEvents toks s s ⟨rfl, rfl, rfl, rfl, rfl⟩).1⟩

/-- The C4 example document: one chapter holding 3 figures interleaved
with 2 tables. -/
def c4Doc : List Tok :=
  [.sec "One" [], .fig ["f1"], .tab ["t1"], .fig ["f2"], .tab ["t2"],
   .fig ["f3"], .secEnd]

theorem c4_figure_table_counters_witness :
    BalancedDoc c4Doc = true ∧
    ((figKs (runNV initNVState c4Doc).2 =
        List.range' (initNVState.figure_num + 1) (c4Doc.countP isFigTok) ∧
      (runNV initNVState c4Doc).1.figure_num =
        initNVState.figure_num + c4Doc.countP isFigTok) ∧
     (tabKs (runNV initNVState c4Doc).2 =
        List.range' (initNVState.table_num + 1) (c4Doc.countP isTabTok) ∧
      (runNV initNVState c4Doc).1.table_num =
        initNVState.table_num + c4Doc.countP isTabTok) ∧
     figEvents (runNV initNVState (eraseTables c4Doc)).2 =
       figEvents (runNV initNVState c4Doc).2 ∧
     tabEvents (runNV initNVState (eraseFigures c4Doc)).2 =
       tabEvents (runNV initNVState c4Doc).2) :=
  ⟨by decide, c4_figure_table_counters c4Doc (by decide) initNVState⟩

end Rst

namespace Rst

/-- C7: when a section title begins with an explicit `<int>(.<int>)*`
number, the behaviour of `visit_section` depends on whether the number's
depth equals the current nesting depth: on a match the explicit numbering
replaces the counter stack, a `\setcounter` counter-reset directive is
emitted and the matched prefix is stripped from the title; on a mismatch
the error is reported non-fatally (`Error: section depth mismatch`), the
override is ignored — the incremented counter stack and the title are
left untouched and numbering continues from them (a `\setcounter`
directive reflecting the current counter is still emitted, as the source
emits it outside the depth test). -/
theorem c7_explicit_section_number
    (s : NVState) (title : String) (ids : List String)
    (hctx : s.set_section_context = none)
    (_hne : s.section_num ≠ [])
    (g1 : String) (mend : Nat)
    (hm : explicitNumMatch title = some (g1, mend))
    (_hnum : ∀ p ∈ splitCharL '.' g1.data, ¬ p.isEmpty ∧ p.all isDigitChar) :
    (((splitCharL '.' g1.data).map pyIntParse).length =
        (setLast s.section_num (fun x => x + 1)).length →
       runNV s [Tok.sec title ids] =
         ({ s with
              section_num := (splitCharL '.' g1.data).map pyIntParse ++ [0],
              reference_labels := s.reference_labels ++ ids.map (fun i =>
                (i, format_section_num s.section_context
                      ((splitCharL '.' g1.data).map pyIntParse) none)) },
          [Event.rawTex ("\\setcounter\x7b" ++ TOP_SECTION ++ "\x7d\x7b" ++
             toString (pyGetD ((splitCharL '.' g1.data).map pyIntParse) 0 0 - 1) ++ "\x7d"),
           Event.secLabel
             (format_section_num s.section_context
               ((splitCharL '.' g1.data).map pyIntParse) none)
             (String.mk (title.data.drop mend))])) ∧
    (((splitCharL '.' g1.data).map pyIntParse).length ≠
        (setLast s.section_num (fun x => x + 1)).length →
       runNV s [Tok.sec title ids] =
         ({ s with
              section_num := setLast s.section_num (fun x => x + 1) ++ [0],
              reference_labels := s.reference_labels ++ ids.map (fun i =>
                (i, format_section_num s.section_context
                      (setLast s.section_num (fun x => x + 1)) none)) },
          [Event.errMsg "Error: section depth mismatch",
           Event.rawTex ("\\setcounter\x7b" ++ TOP_SECTION ++ "\x7d\x7b" ++
             toString (pyGetD (setLast s.section_num (fun x => x + 1)) 0 0 - 1) ++ "\x7d"),
           Event.secLabel
             (format_section_num s.section_context
               (setLast s.section_num (fun x => x + 1)) none)
             title])) := by
  constructor
  · intro hlen
    simp only [List.length_map] at hlen
    simp [runNV, stepTok, visitSection, hctx, hm, hlen]
  · intro hlen
    simp only [List.length_map] at hlen
    simp [runNV, stepTok, visitSection, hctx, hm, hlen]

theorem c7_explicit_section_number_witness :
    (runNV initNVState [Tok.sec "2 Overview" ["sx"]] =
       ({ initNVState with section_num := [2, 0], reference_labels := [("sx", "2")] },
        [Event.rawTex "\\setcounter\x7bchapter\x7d\x7b1\x7d",
         Event.secLabel "2" "Overview"])) ∧
    (runNV initNVState [Tok.sec "1.1 Deep" []] =
       ({ initNVState with section_num := [1, 0] },
        [Event.errMsg "Error: section depth mismatch",
         Event.rawTex "\\setcounter\x7bchapter\x7d\x7b0\x7d",
         Event.secLabel "1" "1.1 Deep"])) := by
  constructor
  · have h := (c7_explicit_section_number initNVState "2 Overview" ["sx"] rfl
      (by decide) "2" 2 (by decide) (by decide)).1 (by decide)
    exact h.trans (by decide)
  · have h := (c7_explicit_section_number initNVState "1.1 Deep" [] rfl
      (by decide) "1.1" 4 (by decide) (by decide)).2 (by decide)
    exact h.trans (by decide)

end Rst

namespace Rst

/-! ## Reference resolver (`ReferenceVisitor` / `ExternalCrossrefVisitor`)

Documents are embedded as lists of sibling nodes; only the node kinds the
two passes inspect are distinguished.  `walkabout` order (visit a node,
then its children, then its following siblings) is preserved, with the
accumulator holding the already-visited left siblings in reverse so that
`expand_reference_text` can mutate the preceding sibling.  After a
reference's children are replaced by `[Text(label)]`, the walkabout's
descent into them visits only a `Text` node, where both visitors do
nothing; the model therefore keeps the replacement list as is. -/

inductive RNode where
  | text (data : String)
  | reference (refid : Option String) (refname : Option String)
      (refuri : Option String) (resolved : Bool) (rchildren : List RNode)
  | topic (isContents : Bool) (tchildren : List RNode)
  | elem (echildren : List RNode)
deriving Repr

/-- Python `a or b` over attribute lookups (`node.get('refid') or
node.get('refname')`): an empty string is falsy. -/
def pyOr (a b : Option String) : Option String :=
  match a with
  | some s => if s.isEmpty then b else some s
  | none => b

/-- Dict lookup (last write wins) in the Reference Label Table. -/
def lookupLabel (labels : List (String × String)) (k : String) : Option String :=
  (labels.reverse.find? (fun p => p.1 = k)).map Prod.snd

/-- The classifier words of `_EXPAND_REF_RE`, in source order. -/
def CLASSIFIER_WORDS : List String :=
  ["figure", "table", "example", "chapter", "section", "appendix",
   "sentence", "tree"]

/-- `_EXPAND_REF_RE.match(prev)`: `some (group(1), group(2))` when `prev`
ends, case-insensitively, with a classifier word followed by at least one
whitespace character (greedy `(.*)` makes the word the last one; no
classifier word is a suffix of another, so the match is unique). -/
def expandMatch (prev : String) : Option (String × String) :=
  let cs := prev.data
  let ws := cs.reverse.takeWhile isPySpace
  if ws.isEmpty then none
  else
    let body := (cs.reverse.drop ws.length).reverse
    CLASSIFIER_WORDS.findSome? fun w =>
      if decide (w.data.length ≤ body.length) ∧
         (body.drop (body.length - w.data.length)).map Char.toLower = w.data then
        some (String.mk (body.take (body.length - w.data.length)),
              String.mk (body.drop (body.length - w.data.length)))
      else none

/-- `expand_reference_text` as both passes use it, given the preceding
text node's data and the new label: returns the new preceding data and
the new link text. -/
def expandStep (prevData label : String) : String × String :=
  match expandMatch prevData with
  | some (pre, word) => (pre, word ++ " " ++ label)
  | none => (prevData, label)

/-- `ReferenceVisitor` (the local pass, `NumberReferences`): `acc` holds
the processed left siblings, head first. -/
def localGo (labels : List (String × String)) (acc : List RNode) :
    List RNode → List RNode
  | [] => acc.reverse
  | RNode.text t :: rest => localGo labels (RNode.text t :: acc) rest
  | RNode.topic true ch :: rest =>
    localGo labels (RNode.topic true ch :: acc) rest
  | RNode.topic false ch :: rest =>
    localGo labels (RNode.topic false (localGo labels [] ch) :: acc) rest
  | RNode.elem ch :: rest =>
    localGo labels (RNode.elem (localGo labels [] ch) :: acc) rest
  | RNode.reference ri rn ru res ch :: rest =>
    match pyOr ri rn with
    | some nid =>
      match lookupLabel labels nid with
      | some label =>
        match acc with
        | RNode.text pd :: acc2 =>
          localGo labels
            (RNode.reference ri rn ru res [RNode.text (expandStep pd label).2] ::
              RNode.text (expandStep pd label).1 :: acc2) rest
        | _ =>
          localGo labels
            (RNode.reference ri rn ru res [RNode.text label] :: acc) rest
      | none =>
        localGo labels (RNode.reference ri rn ru res (localGo labels [] ch) :: acc) rest
    | none =>
      localGo labels (RNode.reference ri rn ru res (localGo labels [] ch) :: acc) rest

/-- The local reference pass over a document (a sibling list). -/
def ReferenceVisitorList (labels : List (String × String)) (doc : List RNode) :
    List RNode :=
  localGo labels [] doc

/-- A loaded external `.ref` Symbol Table Record, as
`ResolveExternalCrossrefs.build_ref_dict` reads it. -/
structure RefRecord where
  basename : String
  targets : List String
  reference_labels : List (String × String)
deriving DecidableEq, Repr

/-- `build_ref_dict`: `{target -> (uri, label)}` merged over all records
(later records overwrite earlier ones). -/
def build_ref_dict (fmt : String) (records : List RefRecord) :
    List (String × String × Option String) :=
  records.foldl (fun acc r =>
    let uri := if fmt = "html" then r.basename ++ ".html" else r.basename ++ ".pdf"
    acc ++ r.targets.map (fun ref => (ref, uri, lookupLabel r.reference_labels ref))) []

/-- Dict lookup in the merged cross-file dictionary. -/
def lookupRef (d : List (String × String × Option String)) (k : String) :
    Option (String × Option String) :=
  (d.reverse.find? (fun p => p.1 = k)).map Prod.snd

/-- `ExternalCrossrefVisitor` (the cross-file pass,
`ResolveExternalCrossrefs`). -/
def extGo (d : List (String × String × Option String)) (acc : List RNode) :
    List RNode → List RNode
  | [] => acc.reverse
  | RNode.text t :: rest => extGo d (RNode.text t :: acc) rest
  | RNode.topic true ch :: rest => extGo d (RNode.topic true ch :: acc) rest
  | RNode.topic false ch :: rest =>
    extGo d (RNode.topic false (extGo d [] ch) :: acc) rest
  | RNode.elem ch :: rest => extGo d (RNode.elem (extGo d [] ch) :: acc) rest
  | RNode.reference ri rn ru res ch :: rest =>
    if res then extGo d (RNode.reference ri rn ru res (extGo d [] ch) :: acc) rest
    else
      match pyOr ri rn with
      | some nid =>
        match lookupRef d nid with
        | some (uri, lbl) =>
          match lbl with
          | some label =>
            match acc with
            | RNode.text pd :: acc2 =>
              extGo d
                (RNode.reference ri rn (some (uri ++ "#" ++ nid)) true
                   [RNode.text (expandStep pd label).2] ::
                 RNode.text (expandStep pd label).1 :: acc2) rest
            | _ =>
              extGo d
                (RNode.reference ri rn (some (uri ++ "#" ++ nid)) true
                   [RNode.text label] :: acc) rest
          | none =>
            extGo d
              (RNode.reference ri rn (some (uri ++ "#" ++ nid)) true
                 (extGo d [] ch) :: acc) rest
        | none =>
          extGo d (RNode.reference ri rn ru res (extGo d [] ch) :: acc) rest
      | none =>
        extGo d (RNode.reference ri rn ru res (extGo d [] ch) :: acc) rest

/-- The cross-file reference pass over a document. -/
def ExternalCrossrefVisitorList (d : List (String × String × Option String))
    (doc : List RNode) : List RNode :=
  extGo d [] doc

end Rst

namespace Rst

/-- The C1 input: a paragraph reading `see figure <ref>` whose reference
target is in the local Reference Label Table. -/
def c1Doc : List RNode :=
  [RNode.text "see figure ",
   RNode.reference none (some "fig1") none false [RNode.text "fig1"]]

def c1Labels : List (String × String) := [("fig1", "3.1")]

/-- The cross-file lookup a reference triggers. -/
def refLookupId (d : List (String × String × Option String))
    (ri rn : Option String) : Option (String × Option String) :=
  match pyOr ri rn with
  | some nid => lookupRef d nid
  | none => none

/-- Nodes the cross-file pass leaves untouched: references are either
already resolved or miss the merged dictionary, recursively (children of
skipped table-of-contents topics are unconstrained, as the pass never
descends into them). -/
inductive StableN (d : List (String × String × Option String)) : RNode → Prop where
  | text (s : String) : StableN d (RNode.text s)
  | topicSkip (ch : List RNode) : StableN d (RNode.topic true ch)
  | topicRec (ch : List RNode) : (∀ m ∈ ch, StableN d m) →
      StableN d (RNode.topic false ch)
  | elemRec (ch : List RNode) : (∀ m ∈ ch, StableN d m) →
      StableN d (RNode.elem ch)
  | refResolved (ri rn ru : Option String) (ch : List RNode) :
      (∀ m ∈ ch, StableN d m) → StableN d (RNode.reference ri rn ru true ch)
  | refMiss (ri rn ru : Option String) (ch : List RNode) :
      refLookupId d ri rn = none → (∀ m ∈ ch, StableN d m) →
      StableN d (RNode.reference ri rn ru false ch)

/-- The cross-file pass is the identity on stable sibling lists. -/
theorem extGo_stable (d : List (String × String × Option String)) :
    ∀ (acc l : List RNode), (∀ m ∈ l, StableN d m) →
      extGo d acc l = acc.reverse ++ l := by
  intro acc l
  induction acc, l using extGo.induct d with
  | case1 acc => simp [extGo]
  | case2 acc t rest ih =>
    intro h
    have hrest : ∀ m ∈ rest, StableN d m := fun m hm => h m (by simp [hm])
    simp [extGo, ih hrest]
  | case3 acc ch rest ih =>
    intro h
    have hrest : ∀ m ∈ rest, StableN d m := fun m hm => h m (by simp [hm])
    simp [extGo, ih hrest]
  | case4 acc ch rest ih1 ih2 =>
    intro h
    have hhead := h (RNode.topic false ch) (by simp)
    have hch : ∀ m ∈ ch, StableN d m := by cases hhead with | topicRec _ hh => exact hh
    have hrest : ∀ m ∈ rest, StableN d m := fun m hm => h m (by simp [hm])
    rw [show extGo d acc (RNode.topic false ch :: rest) =
        extGo d (RNode.topic false (extGo d [] ch) :: acc) rest from by simp [extGo]]
    rw [ih1 hch] at *
    simp only [List.reverse_nil, List.nil_append] at *
    rw [ih2 hrest]
    simp
  | case5 acc ch rest ih1 ih2 =>
    intro h
    have hhead := h (RNode.elem ch) (by simp)
    have hch : ∀ m ∈ ch, StableN d m := by cases hhead with | elemRec _ hh => exact hh
    have hrest : ∀ m ∈ rest, StableN d m := fun m hm => h m (by simp [hm])
    rw [show extGo d acc (RNode.elem ch :: rest) =
        extGo d (RNode.elem (extGo d [] ch) :: acc) rest from by simp [extGo]]
    rw [ih1 hch] at *
    simp only [List.reverse_nil, List.nil_append] at *
    rw [ih2 hrest]
    simp
  | case6 acc ri rn ru ch rest ih1 ih2 =>
    intro h
    have hhead := h (RNode.reference ri rn ru true ch) (by simp)
    have hch : ∀ m ∈ ch, StableN d m := by
      cases hhead with | refResolved _ _ _ _ hh => exact hh
    have hrest : ∀ m ∈ rest, StableN d m := fun m hm => h m (by simp [hm])
    rw [show extGo d acc (RNode.reference ri rn ru true ch :: rest) =
        extGo d (RNode.reference ri rn ru true (extGo d [] ch) :: acc) rest from by
      simp [extGo]]
    rw [ih1 hch] at *
    simp only [List.reverse_nil, List.nil_append] at *
    rw [ih2 hrest]
    simp
  | case7 ri rn ru res ch rest hres s hs uri s1 pd acc2 hlook ih =>
    intro h
    have hhead := h (RNode.reference ri rn ru res ch) (by simp)
    cases hhead with
    | refResolved _ _ _ _ _ => simp_all
    | refMiss _ _ _ _ hmiss _ => simp [refLookupId, hs, hlook] at hmiss
  | case8 acc ri rn ru res ch rest hres s hs uri s1 hnotext hlook ih =>
    intro h
    have hhead := h (RNode.reference ri rn ru res ch) (by simp)
    cases hhead with
    | refResolved _ _ _ _ _ => simp_all
    | refMiss _ _ _ _ hmiss _ => simp [refLookupId, hs, hlook] at hmiss
  | case9 acc ri rn ru res ch rest hres s hs uri hlook ih1 ih2 =>
    intro h
    have hhead := h (RNode.reference ri rn ru res ch) (by simp)
    cases hhead with
    | refResolved _ _ _ _ _ => simp_all
    | refMiss _ _ _ _ hmiss _ => simp [refLookupId, hs, hlook] at hmiss
  | case10 acc ri rn ru res ch rest hres s hs hlook ih1 ih2 =>
    intro h
    have hhead := h (RNode.reference ri rn ru res ch) (by simp)
    have hch : ∀ m ∈ ch, StableN d m := by
      cases hhead with
      | refResolved _ _ _ _ hh => exact hh
      | refMiss _ _ _ _ _ hh => exact hh
    have hrest : ∀ m ∈ rest, StableN d m := fun m hm => h m (by simp [hm])
    have hres' : res = false := by cases res <;> simp_all
    subst hres'
    rw [show extGo d acc (RNode.reference ri rn ru false ch :: rest) =
        extGo d (RNode.reference ri rn ru false (extGo d [] ch) :: acc) rest from by
      simp [extGo, hs, hlook]]
    rw [ih1 hch] at *
    simp only [List.reverse_nil, List.nil_append] at *
    rw [ih2 hrest]
    simp
  | case11 acc ri rn ru res ch rest hres hs ih1 ih2 =>
    intro h
    have hhead := h (RNode.reference ri rn ru res ch) (by simp)
    have hch : ∀ m ∈ ch, StableN d m := by
      cases hhead with
      | refResolved _ _ _ _ hh => exact hh
      | refMiss _ _ _ _ _ hh => exact hh
    have hrest : ∀ m ∈ rest, StableN d m := fun m hm => h m (by simp [hm])
    have hres' : res = false := by cases res <;> simp_all
    subst hres'
    rw [show extGo d acc (RNode.reference ri rn ru false ch :: rest) =
        extGo d (RNode.reference ri rn ru false (extGo d [] ch) :: acc) rest from by
      simp [extGo, hs]]
    rw [ih1 hch] at *
    simp only [List.reverse_nil, List.nil_append] at *
    rw [ih2 hrest]
    simp


/-- Every node the cross-file pass outputs is stable (given a stable
accumulator). -/
theorem extGo_output_stable (d : List (String × String × Option String)) :
    ∀ (acc l : List RNode), (∀ m ∈ acc, StableN d m) →
      ∀ m ∈ extGo d acc l, StableN d m := by
  intro acc l
  induction acc, l using extGo.induct d with
  | case1 acc =>
    intro h m hm
    rw [show extGo d acc [] = acc.reverse from by simp [extGo]] at hm
    exact h m (List.mem_reverse.mp hm)
  | case2 acc t rest ih =>
    intro h
    rw [show extGo d acc (RNode.text t :: rest) =
        extGo d (RNode.text t :: acc) rest from by simp [extGo]]
    apply ih
    intro m hm
    rcases List.mem_cons.mp hm with rfl | hm2
    · exact StableN.text t
    · exact h m hm2
  | case3 acc ch rest ih =>
    intro h
    rw [show extGo d acc (RNode.topic true ch :: rest) =
        extGo d (RNode.topic true ch :: acc) rest from by simp [extGo]]
    apply ih
    intro m hm
    rcases List.mem_cons.mp hm with rfl | hm2
    · exact StableN.topicSkip ch
    · exact h m hm2
  | case4 acc ch rest ih1 ih2 =>
    intro h
    rw [show extGo d acc (RNode.topic false ch :: rest) =
        extGo d (RNode.topic false (extGo d [] ch) :: acc) rest from by simp [extGo]]
    apply ih2
    intro m hm
    rcases List.mem_cons.mp hm with rfl | hm2
    · exact StableN.topicRec _ (ih1 (by simp))
    · exact h m hm2
  | case5 acc ch rest ih1 ih2 =>
    intro h
    rw [show extGo d acc (RNode.elem ch :: rest) =
        extGo d (RNode.elem (extGo d [] ch) :: acc) rest from by simp [extGo]]
    apply ih2
    intro m hm
    rcases List.mem_cons.mp hm with rfl | hm2
    · exact StableN.elemRec _ (ih1 (by simp))
    · exact h m hm2
  | case6 acc ri rn ru ch rest ih1 ih2 =>
    intro h
    rw [show extGo d acc (RNode.reference ri rn ru true ch :: rest) =
        extGo d (RNode.reference ri rn ru true (extGo d [] ch) :: acc) rest from by
      simp [extGo]]
    apply ih2
    intro m hm
    rcases List.mem_cons.mp hm with rfl | hm2
    · exact StableN.refResolved _ _ _ _ (ih1 (by simp))
    · exact h m hm2
  | case7 ri rn ru res ch rest hres s hs uri s1 pd acc2 hlook ih =>
    intro h
    have hres' : res = false := by cases res <;> simp_all
    subst hres'
    rw [show extGo d (RNode.text pd :: acc2) (RNode.reference ri rn ru false ch :: rest) =
        extGo d
          (RNode.reference ri rn (some (uri ++ "#" ++ s)) true
             [RNode.text (expandStep pd s1).2] ::
           RNode.text (expandStep pd s1).1 :: acc2) rest from by
      simp [extGo, hs, hlook]]
    apply ih
    intro m hm
    rcases List.mem_cons.mp hm with rfl | hm2
    · refine StableN.refResolved _ _ _ _ ?_
      intro m2 hm2
      rcases List.mem_cons.mp hm2 with rfl | hm3
      · exact StableN.text _
      · simp at hm3
    · rcases List.mem_cons.mp hm2 with rfl | hm3
      · exact StableN.text _
      · exact h m (by simp [hm3])
  | case8 acc ri rn ru res ch rest hres s hs uri s1 hnotext hlook ih =>
    intro h
    have hres' : res = false := by cases res <;> simp_all
    subst hres'
    rw [show extGo d acc (RNode.reference ri rn ru false ch :: rest) =
        extGo d
          (RNode.reference ri rn (some (uri ++ "#" ++ s)) true
             [RNode.text s1] :: acc) rest from by
      cases acc with
      | nil => simp [extGo, hs, hlook]
      | cons a acc2 =>
        cases a with
        | text pd => exact absurd rfl (by intro hh; exact hnotext pd acc2 hh)
        | reference r1 r2 r3 r4 r5 => simp [extGo, hs, hlook]
        | topic b tch => simp [extGo, hs, hlook]
        | elem ech => simp [extGo, hs, hlook]]
    apply ih
    intro m hm
    rcases List.mem_cons.mp hm with rfl | hm2
    · refine StableN.refResolved _ _ _ _ ?_
      intro m2 hm2
      rcases List.mem_cons.mp hm2 with rfl | hm3
      · exact StableN.text _
      · simp at hm3
    · exact h m hm2
  | case9 acc ri rn ru res ch rest hres s hs uri hlook ih1 ih2 =>
    intro h
    have hres' : res = false := by cases res <;> simp_all
    subst hres'
    rw [show extGo d acc (RNode.reference ri rn ru false ch :: rest) =
        extGo d (RNode.reference ri rn (some (uri ++ "#" ++ s)) true
          (extGo d [] ch) :: acc) rest from by simp [extGo, hs, hlook]]
    apply ih2
    intro m hm
    rcases List.mem_cons.mp hm with rfl | hm2
    · exact StableN.refResolved _ _ _ _ (ih1 (by simp))
    · exact h m hm2
  | case10 acc ri rn ru res ch rest hres s hs hlook ih1 ih2 =>
    intro h
    have hres' : res = false := by cases res <;> simp_all
    subst hres'
    rw [show extGo d acc (RNode.reference ri rn ru false ch :: rest) =
        extGo d (RNode.reference ri rn ru false (extGo d [] ch) :: acc) rest from by
      simp [extGo, hs, hlook]]
    apply ih2
    intro m hm
    rcases List.mem_cons.mp hm with rfl | hm2
    · exact StableN.refMiss _ _ _ _ (by simp [refLookupId, hs, hlook]) (ih1 (by simp))
    · exact h m hm2
  | case11 acc ri rn ru res ch rest hres hs ih1 ih2 =>
    intro h
    have hres' : res = false := by cases res <;> simp_all
    subst hres'
    rw [show extGo d acc (RNode.reference ri rn ru false ch :: rest) =
        extGo d (RNode.reference ri rn ru false (extGo d [] ch) :: acc) rest from by
      simp [extGo, hs]]
    apply ih2
    intro m hm
    rcases List.mem_cons.mp hm with rfl | hm2
    · exact StableN.refMiss _ _ _ _ (by simp [refLookupId, hs]) (ih1 (by simp))
    · exact h m hm2


/-- C1 (amended): the cross-file pass marks every reference it resolves
as resolved and skips resolved references, so it is idempotent: running
it a second time over any document (with any merged cross-file
dictionary) is the identity.  (The local pass, by contrast, neither
checks nor sets the resolved flag and is not idempotent — see the
counterexample.) -/
theorem c1_amended (d : List (String × String × Option String))
    (doc : List RNode) :
    ExternalCrossrefVisitorList d (ExternalCrossrefVisitorList d doc) =
      ExternalCrossrefVisitorList d doc := by
  unfold ExternalCrossrefVisitorList
  rw [extGo_stable d [] _ (extGo_output_stable d [] doc (by simp))]
  simp

/-- C1 (counterexample): the local reference pass is not idempotent, so
"running reference resolution on the same tree a second time yields a
tree identical to the first run's result" is false: on `see figure
<ref(fig1)>` the first run absorbs the classifier word (`see ` +
link `figure 3.1`), while the second run — the local pass never checks or
sets the resolved flag — resets the link text to the bare label `3.1`. -/
theorem c1_counterexample :
    ¬ ReferenceVisitorList c1Labels (ReferenceVisitorList c1Labels c1Doc) =
        ReferenceVisitorList c1Labels c1Doc := by
  have h1 : ReferenceVisitorList c1Labels c1Doc =
      [RNode.text "see ",
       RNode.reference none (some "fig1") none false [RNode.text "figure 3.1"]] := by
    simp [ReferenceVisitorList, localGo, c1Doc, c1Labels, pyOr, lookupLabel,
          expandStep, expandMatch, isPySpace, CLASSIFIER_WORDS, List.findSome?]
  have h2 : ReferenceVisitorList c1Labels
      [RNode.text "see ",
       RNode.reference none (some "fig1") none false [RNode.text "figure 3.1"]] =
      [RNode.text "see ",
       RNode.reference none (some "fig1") none false [RNode.text "3.1"]] := by
    simp [ReferenceVisitorList, localGo, c1Labels, pyOr, lookupLabel,
          expandStep, expandMatch, isPySpace, CLASSIFIER_WORDS, List.findSome?]
  intro h
  rw [h1, h2] at h
  simp at h

/-- C5: a reference whose target identifier is absent from the local
Reference Label Table (so the local pass leaves it untouched) and present
in the merged cross-file dictionary built from the loaded Symbol Table
Records gets its link target set to `<uri>#<identifier>`, is marked
resolved, and — when the record supplies a label — has its visible text
replaced by that label with the same preceding-classifier-word absorption
(`expandStep`) as the local pass. -/
theorem c5_external_crossref
    (fmt : String) (records : List RefRecord) (labels : List (String × String))
    (p lt : String) (ri rn : Option String) (tid uri : String) (lbl : Option String)
    (hid : pyOr ri rn = some tid)
    (hlocal : lookupLabel labels tid = none)
    (hext : lookupRef (build_ref_dict fmt records) tid = some (uri, lbl)) :
    ReferenceVisitorList labels
        [RNode.text p, RNode.reference ri rn none false [RNode.text lt]] =
      [RNode.text p, RNode.reference ri rn none false [RNode.text lt]] ∧
    ExternalCrossrefVisitorList (build_ref_dict fmt records)
        [RNode.text p, RNode.reference ri rn none false [RNode.text lt]] =
      (match lbl with
       | some l =>
         [RNode.text (expandStep p l).1,
          RNode.reference ri rn (some (uri ++ "#" ++ tid)) true
            [RNode.text (expandStep p l).2]]
       | none =>
         [RNode.text p,
          RNode.reference ri rn (some (uri ++ "#" ++ tid)) true [RNode.text lt]]) := by
  constructor
  · simp [ReferenceVisitorList, localGo, hid, hlocal]
  · cases lbl with
    | some l => simp [ExternalCrossrefVisitorList, extGo, hid, hext]
    | none => simp [ExternalCrossrefVisitorList, extGo, hid, hext]

end Rst

namespace Rst

theorem c5_external_crossref_witness :
    (ReferenceVisitorList [("other", "1")]
        [RNode.text "see section ",
         RNode.reference none (some "sec-foo") none false [RNode.text "sec-foo"]] =
      [RNode.text "see section ",
       RNode.reference none (some "sec-foo") none false [RNode.text "sec-foo"]]) ∧
    (ExternalCrossrefVisitorList
        (build_ref_dict "html"
          [{ basename := "ch02", targets := ["sec-foo"],
             reference_labels := [("sec-foo", "2.3")] }])
        [RNode.text "see section ",
         RNode.reference none (some "sec-foo") none false [RNode.text "sec-foo"]] =
      [RNode.text (expandStep "see section " "2.3").1,
       RNode.reference none (some "sec-foo") (some ("ch02.html" ++ "#" ++ "sec-foo")) true
         [RNode.text (expandStep "see section " "2.3").2]]) :=
  c5_external_crossref "html"
    [{ basename := "ch02", targets := ["sec-foo"],
       reference_labels := [("sec-foo", "2.3")] }]
    [("other", "1")] "see section " "sec-foo" none (some "sec-foo")
    "sec-foo" "ch02.html" (some "2.3") (by decide) (by decide) (by decide)

end Rst

namespace Rst

/-! ## Indexer (`FindTermVisitor.idxterm_key`) -/

/-- `re.sub('\W', '_', node.astext().lower())`: lowercase, then each
non-word character becomes an underscore. -/
def idxNormalize (text : String) : String :=
  String.mk ((pyLower text).data.map (fun c => if isWordChar c then c else '_'))

/-- The `while '%s_%d' % (key, n) in self.terms: n += 1` loop; at most
`keys.length` suffixes can collide, so the fuel is never exhausted. -/
def idxFresh (keys : List String) (key : String) : Nat → Nat → String
  | 0, n => key ++ "_" ++ toString n
  | fuel + 1, n =>
    if (key ++ "_" ++ toString n) ∈ keys then idxFresh keys key fuel (n + 1)
    else key ++ "_" ++ toString n

/-- `FindTermVisitor.idxterm_key`, given the keys already in `self.terms`. -/
def idxterm_key (keys : List String) (text : String) : String :=
  let key := idxNormalize text ++ "_index_term"
  if key ∈ keys then idxFresh keys key (keys.length + 1) 2 else key

/-- The keys `FindTermVisitor` assigns to the index terms of a document,
in document order. -/
def runFindTerms (texts : List String) : List String :=
  texts.foldl (fun acc t => acc ++ [idxterm_key acc t]) []

/-! ## Citation resolver (`Citations`) -/

def braceL : Char := Char.ofNat 123

def braceR : Char := Char.ofNat 125

/-- Python `if authors[-1:] == ',': authors = authors[:-1]`. -/
def stripTrailingComma (cs : List Char) : List Char :=
  match cs.reverse with
  | ',' :: front => front.reverse
  | _ => cs

/-- `re.sub(r'OP(.*)CL$', r'\1', s)`: when the string ends with `cl` and
an earlier `op` occurs, delete the leftmost `op` and the final `cl`
(the author value contains no newline, so the `.`-excludes-newline caveat
does not arise). -/
def subWrap (op cl : Char) (cs : List Char) : List Char :=
  match cs.reverse with
  | [] => cs
  | c :: frontRev =>
    if c = cl then
      let body := frontRev.reverse
      match body.findIdx? (fun x => x = op) with
      | some i => body.take i ++ body.drop (i + 1)
      | none => cs
    else cs

/-- `re.split(r'\s+and\s+', authors)`: a match starts at a whitespace
run followed by the literal `and` and more whitespace (both runs
consumed greedily).  Each step consumes at least one character, so fuel
`length + 1` suffices. -/
def saGo : Nat → List Char → List Char → List (List Char)
  | 0, acc, rest => [acc.reverse ++ rest]
  | _ + 1, acc, [] => [acc.reverse]
  | fuel + 1, acc, c :: cs =>
    if isPySpace c then
      let run := (c :: cs).takeWhile isPySpace
      let rest := (c :: cs).dropWhile isPySpace
      match rest with
      | 'a' :: 'n' :: 'd' :: e :: es =>
        if isPySpace e then
          acc.reverse :: saGo fuel [] ((e :: es).dropWhile isPySpace)
        else saGo fuel (run.reverse ++ acc) rest
      | _ => saGo fuel (run.reverse ++ acc) rest
    else saGo fuel (c :: acc) cs

def splitAnd (cs : List Char) : List (List Char) := saGo (cs.length + 1) [] cs

/-- Python `str.split()` (split on whitespace, dropping empties). -/
def pySplitWsAux : Nat → List Char → List (List Char)
  | 0, _ => []
  | _ + 1, [] => []
  | fuel + 1, c :: cs =>
    if isPySpace c then pySplitWsAux fuel cs
    else
      (c :: cs).takeWhile (fun x => ¬ isPySpace x) ::
        pySplitWsAux fuel ((c :: cs).dropWhile (fun x => ¬ isPySpace x))

def pySplitWs (cs : List Char) : List (List Char) := pySplitWsAux (cs.length + 1) cs

/-- `a.split()[-1]` (an `IndexError` on a wordless author, modelled by
the empty word and unreachable under the theorems' premises). -/
def lastWordL (cs : List Char) : List Char := (pySplitWs cs).getLast?.getD []

/-- `Citations.bib_authors`. -/
def bib_authors (authors : String) : String :=
  let a := stripTrailingComma authors.data
  let a := subWrap '"' '"' a
  let a := subWrap braceL braceR a
  let a := subWrap '\'' '\'' a
  let lasts := (splitAnd a).map lastWordL
  match lasts with
  | [x] => String.mk x
  | [x, y] => String.mk x ++ " & " ++ String.mk y
  | [x, y, z] => String.mk x ++ ", " ++ String.mk y ++ ", & " ++ String.mk z
  | x :: _ => String.mk x ++ " et al"
  | [] => ""

/-- `Citations.bib_year`: delete every quote, brace and comma. -/
def bib_year (year : String) : String :=
  String.mk (year.data.filter
    (fun c => ¬ (c = '"' ∨ c = '\'' ∨ c = braceL ∨ c = braceR ∨ c = ',')))

/-- `re.match(r'@\w+{([^,]+),$', line)`: `group(1)` of an entry-start
line. -/
def entryStartMatch (line : String) : Option String :=
  match line.data with
  | '@' :: rest =>
    let w := rest.takeWhile isWordChar
    if w.isEmpty then none
    else
      match rest.drop w.length with
      | c :: body =>
        if c = braceL then
          match body.reverse with
          | ',' :: midRev =>
            let mid := midRev.reverse
            if ¬ mid.isEmpty ∧ mid.all (fun x => ¬ x = ',') then some (String.mk mid)
            else none
          | _ => none
        else none
      | [] => none
  | _ => none

/-- `re.match(r'(?i)FIELD\s*=\s*(.*)$', line)`: `group(1)`. -/
def fieldMatch (field : String) (line : String) : Option String :=
  let cs := line.data
  if (cs.take field.data.length).map Char.toLower = field.data then
    match (cs.drop field.data.length).dropWhile isPySpace with
    | '=' :: rest => some (String.mk (rest.dropWhile isPySpace))
    | _ => none
  else none

/-- `bibliography` during parsing: key → (author, year), both optional. -/
abbrev BibTable : Type := List (String × Option String × Option String)

def tblGet (tbl : BibTable) (k : String) : Option (Option String × Option String) :=
  (List.find? (fun p => p.1 = k) tbl).map Prod.snd

/-- `bibliography[key] = v` (the table's keys are unique: entries are
only ever created here). -/
def tblSet : BibTable → String → (Option String × Option String) → BibTable
  | [], k, v => [(k, v)]
  | p :: rest, k, v => if p.1 = k then (k, v) :: rest else p :: tblSet rest k v

/-- One line of `Citations.read_bibinfo`'s loop.  The entry-start, author
and year patterns are each tried on the (stripped) line; the `if m and
key` guards skip field lines before any entry start (or under an empty
key). -/
def bibStep (st : Option String × BibTable) (rawLine : String) :
    Option String × BibTable :=
  let line := pyStrip rawLine
  let st :=
    match entryStartMatch line with
    | some g =>
      let key := pyLower (pyStrip g)
      (some key, tblSet st.2 key (none, none))
    | none => st
  let st :=
    match fieldMatch "author" line with
    | some v =>
      match st.1 with
      | some k =>
        if k.isEmpty then st
        else
          match tblGet st.2 k with
          | some pr => (st.1, tblSet st.2 k (some (bib_authors v), pr.2))
          | none => st
      | none => st
    | none => st
  match fieldMatch "year" line with
  | some v =>
    match st.1 with
    | some k =>
      if k.isEmpty then st
      else
        match tblGet st.2 k with
        | some pr => (st.1, tblSet st.2 k (pr.1, some (bib_year v)))
        | none => st
    | none => st
  | none => st

/-- `'%s' % x` where `x` may be `None`. -/
def pyShowOpt (o : Option String) : String := o.getD "None"

/-- `Citations.read_bibinfo`: the final key → `"[Author, Year]"` mapping
and the diagnostics reported for missing fields (the file's lines are the
input; the model iterates the table in insertion order). -/
def read_bibinfo (lines : List String) : List (String × String) × List String :=
  let tbl := (lines.foldl bibStep (none, [])).2
  (tbl.map (fun p => (p.1, "[" ++ pyShowOpt p.2.1 ++ ", " ++ pyShowOpt p.2.2 ++ "]")),
   tbl.foldl (fun acc p =>
     acc ++ (if p.2.1 = none then ["no author found: " ++ p.1] else []) ++
       (if p.2.2 = none then ["no year found: " ++ p.1] else [])) [])

end Rst

namespace Rst

/-- C8 (counterexample): `Foo` and `foo` are distinct terms that both
normalize to `foo`, yet their assigned keys are not `foo` and `foo_2`:
the code appends the constant suffix `_index_term` to every normalized
key before disambiguation. -/
theorem c8_counterexample :
    idxNormalize "Foo" = "foo" ∧ idxNormalize "foo" = "foo" ∧
    ("Foo" : String) ≠ "foo" ∧
    ¬ runFindTerms ["Foo", "foo"] = ["foo", "foo_2"] := by
  decide

/-- C8 (amended): index-term keys are the term's text lowercased with
each non-word character replaced by an underscore, plus the constant
suffix `_index_term`; a fresh key is used as is, and colliding keys are
disambiguated with incrementing suffixes `_2`, `_3`, …: three terms
normalizing to `foo` receive `foo_index_term`, `foo_index_term_2`,
`foo_index_term_3`. -/
theorem c8_amended :
    (∀ t : String, idxterm_key [] t = idxNormalize t ++ "_index_term") ∧
    runFindTerms ["Foo", "foo", "FOO"] =
      ["foo_index_term", "foo_index_term_2", "foo_index_term_3"] := by
  constructor
  · intro t
    simp [idxterm_key]
  · decide

end Rst

namespace Rst

/-- The value of the last `field = …` line of `lines` (document order). -/
def lastField (field : String) (lines : List String) : Option String :=
  lines.reverse.findSome? (fun l => fieldMatch field (pyStrip l))

/-- The recorded field after processing: the last field line's value (through
`f`) if any, else the incoming value. -/
def lastFieldVal (f : String → String) (cur : Option String) (o : Option String) :
    Option String :=
  match o with
  | some v => some (f v)
  | none => cur

theorem tblGet_cons (p : String × Option String × Option String)
    (rest : BibTable) (k : String) :
    tblGet (p :: rest) k = if p.1 = k then some p.2 else tblGet rest k := by
  by_cases h : p.1 = k <;>
    simp [tblGet, List.find?_cons_of_pos, List.find?_cons_of_neg, h]

theorem tblGet_set_self (tbl : BibTable) (k : String)
    (v : Option String × Option String) :
    tblGet (tblSet tbl k v) k = some v := by
  induction tbl with
  | nil => simp [tblSet, tblGet_cons, tblGet]
  | cons p rest ih =>
    by_cases h : p.1 = k
    · simp [tblSet, h, tblGet_cons]
    · simp [tblSet, h, tblGet_cons, ih]

theorem tblGet_set_other (tbl : BibTable) (k k2 : String)
    (v : Option String × Option String) (h : ¬ k2 = k) :
    tblGet (tblSet tbl k v) k2 = tblGet tbl k2 := by
  have h2 : ¬ k = k2 := fun hh => h hh.symm
  induction tbl with
  | nil => simp [tblSet, tblGet_cons, tblGet, h2]
  | cons p rest ih =>
    by_cases hp : p.1 = k
    · have hp2 : ¬ p.1 = k2 := by rw [hp]; exact h2
      simp [tblSet, hp, tblGet_cons, hp2, h2]
    · by_cases hp2 : p.1 = k2
      · simp [tblSet, hp, tblGet_cons, hp2, h]
      · simp [tblSet, hp, tblGet_cons, hp2, ih]

theorem lastField_cons (f : String) (l : String) (rest : List String) :
    lastField f (l :: rest) =
      (match lastField f rest with
       | some x => some x
       | none => fieldMatch f (pyStrip l)) := by
  simp only [lastField, List.reverse_cons, List.findSome?_append]
  cases h : List.findSome? (fun x => fieldMatch f (pyStrip x)) rest.reverse
  · simp [List.findSome?, h]
    cases fieldMatch f (pyStrip l) <;> rfl
  · simp [List.findSome?, h]

/-- Stepping a line that starts no entry, from a live key `k` with an
existing entry `(a0, y0)`: the key survives, entry `k` holds the stepped
field values, other entries are untouched. -/
theorem bibStep_live (l : String) (k : String) (tbl : BibTable)
    (a0 y0 : Option String)
    (hentry : entryStartMatch (pyStrip l) = none)
    (hk : ¬ k.isEmpty = true)
    (hget : tblGet tbl k = some (a0, y0)) :
    (bibStep (some k, tbl) l).1 = some k ∧
    tblGet (bibStep (some k, tbl) l).2 k =
      some (lastFieldVal bib_authors a0 (fieldMatch "author" (pyStrip l)),
            lastFieldVal bib_year y0 (fieldMatch "year" (pyStrip l))) ∧
    (∀ k2, ¬ k2 = k → tblGet (bibStep (some k, tbl) l).2 k2 = tblGet tbl k2) := by
  cases ha : fieldMatch "author" (pyStrip l) with
  | some v =>
    cases hy : fieldMatch "year" (pyStrip l) with
    | some w =>
      refine ⟨?_, ?_, ?_⟩ <;>
        simp [bibStep, hentry, ha, hy, hk, hget, tblGet_set_self, lastFieldVal,
              tblGet_set_other]
      intro k2 hk2
      rw [tblGet_set_other _ _ _ _ hk2, tblGet_set_other _ _ _ _ hk2]
    | none =>
      refine ⟨?_, ?_, ?_⟩ <;>
        simp [bibStep, hentry, ha, hy, hk, hget, tblGet_set_self, lastFieldVal,
              tblGet_set_other]
      intro k2 hk2
      rw [tblGet_set_other _ _ _ _ hk2]
  | none =>
    cases hy : fieldMatch "year" (pyStrip l) with
    | some w =>
      refine ⟨?_, ?_, ?_⟩ <;>
        simp [bibStep, hentry, ha, hy, hk, hget, tblGet_set_self, lastFieldVal,
              tblGet_set_other]
      intro k2 hk2
      rw [tblGet_set_other _ _ _ _ hk2]
    | none =>
      refine ⟨?_, ?_, ?_⟩ <;>
        simp [bibStep, hentry, ha, hy, hk, hget, lastFieldVal]


theorem bibStep_dead (l : String) (tbl : BibTable)
    (h : entryStartMatch (pyStrip l) = none) :
    bibStep (none, tbl) l = (none, tbl) := by
  cases ha : fieldMatch "author" (pyStrip l) <;>
    cases hy : fieldMatch "year" (pyStrip l) <;>
      simp [bibStep, h, ha, hy]

theorem foldl_bibStep_dead (pre : List String) : ∀ tbl : BibTable,
    (∀ l ∈ pre, entryStartMatch (pyStrip l) = none) →
    pre.foldl bibStep (none, tbl) = (none, tbl) := by
  induction pre with
  | nil => intro tbl _; rfl
  | cons l rest ih =>
    intro tbl h
    rw [List.foldl_cons, bibStep_dead l tbl (h l (by simp))]
    exact ih tbl (fun l2 hl2 => h l2 (by simp [hl2]))

/-- C10: an `author = …` / `year = …` line seen before any
`@<type>{<key>,` entry-start line modifies no entry — a prefix of lines
containing no entry start leaves `read_bibinfo` unchanged — and once a
key is live, every recorded author/year value is attributed to that key:
folding any entry-start-free suffix updates exactly the live key's entry,
to the last author/year lines seen (through `bib_authors` / `bib_year`),
leaving every other entry untouched. -/
theorem c10_bib_attribution :
    (∀ pre rest : List String,
       (∀ l ∈ pre, entryStartMatch (pyStrip l) = none) →
       read_bibinfo (pre ++ rest) = read_bibinfo rest) ∧
    (∀ (k : String) (tbl : BibTable) (rest : List String) (a0 y0 : Option String),
       (∀ l ∈ rest, entryStartMatch (pyStrip l) = none) →
       ¬ k.isEmpty = true →
       tblGet tbl k = some (a0, y0) →
       (rest.foldl bibStep (some k, tbl)).1 = some k ∧
       tblGet (rest.foldl bibStep (some k, tbl)).2 k =
         some (lastFieldVal bib_authors a0 (lastField "author" rest),
               lastFieldVal bib_year y0 (lastField "year" rest)) ∧
       (∀ k2, ¬ k2 = k →
          tblGet (rest.foldl bibStep (some k, tbl)).2 k2 = tblGet tbl k2)) := by
  constructor
  · intro pre rest h
    unfold read_bibinfo
    rw [List.foldl_append, foldl_bibStep_dead pre [] h]
  · intro k tbl rest
    induction rest generalizing tbl with
    | nil =>
      intro a0 y0 _ hk hget
      refine ⟨rfl, ?_, fun k2 _ => rfl⟩
      simp [lastField, lastFieldVal, hget]
    | cons l rest ih =>
      intro a0 y0 h hk hget
      obtain ⟨h1, h2, h3⟩ := bibStep_live l k tbl a0 y0 (h l (by simp)) hk hget
      have hrest : ∀ l2 ∈ rest, entryStartMatch (pyStrip l2) = none :=
        fun l2 hl2 => h l2 (by simp [hl2])
      have hst : bibStep (some k, tbl) l = (some k, (bibStep (some k, tbl) l).2) :=
        Prod.ext h1 rfl
      rw [List.foldl_cons, hst]
      obtain ⟨g1, g2, g3⟩ := ih (bibStep (some k, tbl) l).2 _ _ hrest hk h2
      refine ⟨g1, ?_, ?_⟩
      · rw [g2, lastField_cons, lastField_cons]
        cases hA : lastField "author" rest <;> cases hY : lastField "year" rest <;>
          simp [lastFieldVal]
      · intro k2 hk2
        rw [g3 k2 hk2, h3 k2 hk2]

theorem c10_bib_attribution_witness :
    (read_bibinfo (["author = Lost Author,", "title = x"] ++ ["@Book\x7bk1,"]) =
       read_bibinfo ["@Book\x7bk1,"]) ∧
    ((["author = A B,", "year = 1999,"].foldl bibStep
        (some "k1", [("k1", (none, none))])).1 = some "k1" ∧
     tblGet (["author = A B,", "year = 1999,"].foldl bibStep
        (some "k1", [("k1", (none, none))])).2 "k1" =
       some (lastFieldVal bib_authors none
               (lastField "author" ["author = A B,", "year = 1999,"]),
             lastFieldVal bib_year none
               (lastField "year" ["author = A B,", "year = 1999,"])) ∧
     (∀ k2, ¬ k2 = "k1" →
        tblGet (["author = A B,", "year = 1999,"].foldl bibStep
          (some "k1", [("k1", (none, none))])).2 k2 =
        tblGet [("k1", (none, none))] k2)) :=
  ⟨c10_bib_attribution.1 ["author = Lost Author,", "title = x"] ["@Book\x7bk1,"]
     (by decide),
   c10_bib_attribution.2 "k1" [("k1", (none, none))]
     ["author = A B,", "year = 1999,"] none none (by decide) (by decide) (by decide)⟩

end Rst

namespace Rst

/-- A character that can appear in an author's name: not whitespace and
not one of the wrapper/separator characters the strip chain inspects. -/
def safeChar (c : Char) : Bool :=
  ¬ isPySpace c ∧ ¬ c = '"' ∧ ¬ c = braceL ∧ ¬ c = braceR ∧ ¬ c = '\'' ∧ ¬ c = ','

/-- A name word: nonempty, of safe characters, and not the separator
word `and` itself. -/
abbrev wordOK (w : List Char) : Prop :=
  w ≠ [] ∧ (∀ c ∈ w, safeChar c = true) ∧ w ≠ ['a', 'n', 'd']

/-- An author given as whitespace-separated words. -/
abbrev okAuthor (a : List (List Char)) : Prop := a ≠ [] ∧ ∀ u ∈ a, wordOK u

/-- Words joined by single spaces. -/
def joinWords : List (List Char) → List Char
  | [] => []
  | w :: rest => w ++ (rest.map (fun u => ' ' :: u)).flatten

/-- The ` and `-joined tail of an author list, and the whole author field. -/
def andTail (joinA : List Char) (as : List (List (List Char))) : List Char :=
  match as with
  | [] => []
  | _ => ' ' :: 'a' :: 'n' :: 'd' :: ' ' :: joinA

def joinAuthors : List (List (List Char)) → List Char
  | [] => []
  | a :: as => joinWords a ++ andTail (joinAuthors as) as

/-- What remains after the current word: the space-prefixed remaining
words of the current author, then the ` and `-joined remaining authors. -/
def restWords (ws : List (List Char)) (as : List (List (List Char))) : List Char :=
  (ws.map (fun u => ' ' :: u)).flatten ++ andTail (joinAuthors as) as

theorem joinAuthors_cons_eq (w : List Char) (ws : List (List Char))
    (as : List (List (List Char))) :
    joinAuthors ((w :: ws) :: as) = w ++ restWords ws as := by
  simp [joinAuthors, joinWords, restWords]

theorem takeWhile_space_cons (x : Char) (t : List Char) (hx : ¬ isPySpace x = true) :
    (' ' :: x :: t).takeWhile isPySpace = [' '] ∧
    (' ' :: x :: t).dropWhile isPySpace = x :: t := by
  have hx2 : isPySpace x = false := by simpa using hx
  have hsp : isPySpace ' ' = true := by decide
  constructor <;> simp [List.takeWhile, List.dropWhile, hx2, hsp]

theorem takeWhile_space_single :
    ([' '] : List Char).takeWhile isPySpace = [' '] ∧
    ([' '] : List Char).dropWhile isPySpace = [] := by
  have hsp : isPySpace ' ' = true := by decide
  constructor <;> simp [List.takeWhile, List.dropWhile, hsp]

end Rst

namespace Rst

/-- A whitespace run followed by a word of safe characters never triggers
the ` and ` split: if the text happens to start with the letters `and`,
either the word is literally `and` (excluded) or the fourth character is
a safe (non-space) character. -/
theorem and_word_no_split (u rest2 : List Char) (hu : wordOK u)
    (hrest : rest2.head? = some ' ' ∨ rest2 = []) :
    ∀ e es, u ++ rest2 = 'a' :: 'n' :: 'd' :: e :: es → isPySpace e = false := by
  have hne := hu.1
  have hsafe := hu.2.1
  have hand := hu.2.2
  intro e es happ
  rcases u with _ | ⟨c0, u⟩
  · exact absurd rfl hne
  rcases u with _ | ⟨c1, u⟩
  · simp at happ
    obtain ⟨rfl, h2⟩ := happ
    rcases hrest with hr | hr <;> rw [h2] at hr <;> simp at hr
  rcases u with _ | ⟨c2, u⟩
  · simp at happ
    obtain ⟨rfl, rfl, h2⟩ := happ
    rcases hrest with hr | hr <;> rw [h2] at hr <;> simp at hr
  rcases u with _ | ⟨c3, u⟩
  · simp at happ
    obtain ⟨rfl, rfl, rfl, h2⟩ := happ
    exact absurd rfl hand
  · simp at happ
    obtain ⟨h0, h1, h2, h3, h4⟩ := happ
    have hc3 : safeChar c3 = true := hsafe c3 (by simp)
    simp [safeChar] at hc3
    rw [← h3]
    simp [hc3.1]

/-- One scanner step at a single space followed by a non-space character,
when the ` and `-check fails: the space joins the accumulator. -/
theorem saGo_space_step_noand (f : Nat) (acc : List Char) (x : Char) (t : List Char)
    (hx : ¬ isPySpace x = true)
    (hno : ∀ e es, x :: t = 'a' :: 'n' :: 'd' :: e :: es → isPySpace e = false) :
    saGo (f + 1) acc (' ' :: x :: t) = saGo f (' ' :: acc) (x :: t) := by
  have htw := takeWhile_space_cons x t hx
  have hsp : isPySpace ' ' = true := by decide
  simp only [saGo, hsp, eq_self_iff_true, if_true, htw.1, htw.2]
  split
  · rename_i e es heq
    rw [hno e es heq]
    simp
  · simp

/-- One scanner step at a single space starting an ` and ` separator
followed by a non-space character: the accumulated author is emitted and
scanning restarts after the separator. -/
theorem saGo_space_step_and (f : Nat) (acc : List Char) (q : Char) (ts : List Char)
    (hq : ¬ isPySpace q = true) :
    saGo (f + 1) acc (' ' :: 'a' :: 'n' :: 'd' :: ' ' :: q :: ts) =
      acc.reverse :: saGo f [] (q :: ts) := by
  have htw := takeWhile_space_cons 'a' ('n' :: 'd' :: ' ' :: q :: ts) (by decide)
  have htw2 := takeWhile_space_cons q ts hq
  have hsp : isPySpace ' ' = true := by decide
  simp only [saGo, hsp, eq_self_iff_true, if_true, htw.1, htw.2]
  rw [htw2.2]

/-- Scanning the author field from mid-word position `w` (then the
remaining words `ws` of the current author, then the authors `as`): no
split occurs inside an author, and each ` and ` separator splits exactly
at the author boundary. -/
theorem saGo_content : ∀ fuel : Nat, ∀ (acc w : List Char)
    (ws : List (List Char)) (as : List (List (List Char))),
    (∀ c ∈ w, safeChar c = true) →
    (∀ u ∈ ws, wordOK u) →
    (∀ a ∈ as, okAuthor a) →
    (w ++ restWords ws as).length < fuel →
    saGo fuel acc (w ++ restWords ws as) =
      (acc.reverse ++ w ++ (ws.map (fun u => ' ' :: u)).flatten) :: as.map joinWords := by
  intro fuel
  induction fuel with
  | zero => intro acc w ws as _ _ _ hlen; omega
  | succ f ih =>
    intro acc w ws as hw hws has hlen
    cases w with
    | cons c w2 =>
      have hcns : isPySpace c = false := by
        have hc : safeChar c = true := hw c (by simp)
        simp [safeChar] at hc
        simp [hc.1]
      rw [show (c :: w2) ++ restWords ws as = c :: (w2 ++ restWords ws as) from rfl]
      rw [show saGo (f + 1) acc (c :: (w2 ++ restWords ws as)) =
          saGo f (c :: acc) (w2 ++ restWords ws as) from by
        simp [saGo, hcns]]
      rw [ih (c :: acc) w2 ws as (fun x hx => hw x (by simp [hx])) hws has
          (by simp [List.length_append] at hlen ⊢; omega)]
      simp
    | nil =>
      cases ws with
      | cons u ws2 =>
        have hune := (hws u (by simp)).1
        have husafe := (hws u (by simp)).2.1
        have huand := (hws u (by simp)).2.2
        rcases u with _ | ⟨u0, urest⟩
        · exact absurd rfl hune
        have hu0ns : ¬ isPySpace u0 = true := by
          have h1 : safeChar u0 = true := husafe u0 (by simp)
          simp [safeChar] at h1
          simp [h1.1]
        have hcontent : ([] : List Char) ++ restWords ((u0 :: urest) :: ws2) as =
            ' ' :: u0 :: (urest ++ restWords ws2 as) := by
          simp [restWords]
        have hrest2 : (restWords ws2 as).head? = some ' ' ∨ restWords ws2 as = [] := by
          cases ws2 with
          | cons v ws3 => left; simp [restWords]
          | nil =>
            cases as with
            | nil => right; simp [restWords, andTail]
            | cons a as2 => left; simp [restWords, andTail]
        have hno : ∀ e es, u0 :: (urest ++ restWords ws2 as) =
            'a' :: 'n' :: 'd' :: e :: es → isPySpace e = false := by
          intro e es h
          exact and_word_no_split (u0 :: urest) (restWords ws2 as)
            ⟨by simp, husafe, huand⟩ hrest2 e es (by simpa using h)
        rw [hcontent] at hlen ⊢
        rw [saGo_space_step_noand f acc u0 (urest ++ restWords ws2 as) hu0ns hno]
        rw [show (u0 :: (urest ++ restWords ws2 as) : List Char) =
            (u0 :: urest) ++ restWords ws2 as from rfl]
        rw [ih (' ' :: acc) (u0 :: urest) ws2 as husafe
            (fun x hx => hws x (by simp [hx])) has
            (by simp [List.length_append] at hlen ⊢; omega)]
        simp
      | nil =>
        cases as with
        | nil =>
          simp [restWords, andTail, saGo]
        | cons a as2 =>
          have hane := (has a (by simp)).1
          have haok := (has a (by simp)).2
          rcases a with _ | ⟨w0, aws⟩
          · exact absurd rfl hane
          have hw0ne := (haok w0 (by simp)).1
          have hw0safe := (haok w0 (by simp)).2.1
          rcases w0 with _ | ⟨q, w0r⟩
          · exact absurd rfl hw0ne
          have hqns : ¬ isPySpace q = true := by
            have h1 : safeChar q = true := hw0safe q (by simp)
            simp [safeChar] at h1
            simp [h1.1]
          have hcontent : ([] : List Char) ++ restWords [] (((q :: w0r) :: aws) :: as2) =
              ' ' :: 'a' :: 'n' :: 'd' :: ' ' :: (q :: (w0r ++ restWords aws as2)) := by
            simp [restWords, andTail, joinAuthors, joinWords]
          rw [hcontent] at hlen ⊢
          rw [saGo_space_step_and f acc q (w0r ++ restWords aws as2) hqns]
          rw [show (q :: (w0r ++ restWords aws as2) : List Char) =
              (q :: w0r) ++ restWords aws as2 from rfl]
          rw [ih [] (q :: w0r) aws as2 hw0safe
              (fun u hu => haok u (by simp [hu])) (fun x hx => has x (by simp [hx]))
              (by simp [List.length_append] at hlen ⊢; omega)]
          simp [joinWords]

/-- A word of safe characters followed by a space (or nothing) is exactly
what `takeWhile` of the non-space predicate captures. -/
theorem takeDropWord (w rest : List Char)
    (hw : ∀ c ∈ w, safeChar c = true)
    (hrest : rest.head? = some ' ' ∨ rest = []) :
    (w ++ rest).takeWhile (fun x => ¬ isPySpace x) = w ∧
    (w ++ rest).dropWhile (fun x => ¬ isPySpace x) = rest := by
  induction w with
  | nil =>
    rcases hrest with hr | hr
    · rcases rest with _ | ⟨r0, rt⟩
      · simp at hr
      · simp at hr
        subst hr
        constructor <;> simp [show isPySpace ' ' = true from by decide]
    · subst hr
      simp
  | cons c w2 ih =>
    have hc : safeChar c = true := hw c (by simp)
    simp [safeChar] at hc
    have ihx := ih (fun x hx => hw x (by simp [hx]))
    simp at ihx
    simp [List.takeWhile_cons, List.dropWhile_cons, hc.1, ihx.1, ihx.2]

/-- `str.split()` recovers the words of a single-space-joined word
list. -/
theorem pySplitWsAux_content : ∀ fuel : Nat, ∀ (w : List Char) (ws : List (List Char)),
    w ≠ [] → (∀ c ∈ w, safeChar c = true) → (∀ u ∈ ws, wordOK u) →
    (w ++ (ws.map (fun u => ' ' :: u)).flatten).length < fuel →
    pySplitWsAux fuel (w ++ (ws.map (fun u => ' ' :: u)).flatten) = w :: ws := by
  intro fuel
  induction fuel using Nat.strong_induction_on with
  | _ fuel ih =>
    intro w ws hne hsafe hws hlen
    rcases fuel with _ | f
    · omega
    rcases w with _ | ⟨c, w2⟩
    · exact absurd rfl hne
    have hc : safeChar c = true := hsafe c (by simp)
    simp [safeChar] at hc
    have hrest : ((ws.map (fun u => ' ' :: u)).flatten).head? = some ' ' ∨
        (ws.map (fun u => ' ' :: u)).flatten = [] := by
      cases ws with
      | nil => right; simp
      | cons u ws2 => left; simp
    have htd := takeDropWord (c :: w2) ((ws.map (fun u => ' ' :: u)).flatten) hsafe hrest
    have hstep : pySplitWsAux (f + 1)
        (c :: (w2 ++ (ws.map (fun u => ' ' :: u)).flatten)) =
        (c :: (w2 ++ (ws.map (fun u => ' ' :: u)).flatten)).takeWhile
            (fun x => ¬ isPySpace x) ::
          pySplitWsAux f ((c :: (w2 ++ (ws.map (fun u => ' ' :: u)).flatten)).dropWhile
            (fun x => ¬ isPySpace x)) := by
      simp [pySplitWsAux, hc.1]
    rw [show (c :: w2) ++ (ws.map (fun u => ' ' :: u)).flatten =
        c :: (w2 ++ (ws.map (fun u => ' ' :: u)).flatten) from rfl]
    rw [hstep]
    rw [show c :: (w2 ++ (ws.map (fun u => ' ' :: u)).flatten) =
        (c :: w2) ++ (ws.map (fun u => ' ' :: u)).flatten from rfl]
    rw [htd.1, htd.2]
    congr 1
    cases ws with
    | nil =>
      rcases f with _ | f2 <;> simp [pySplitWsAux]
    | cons u ws2 =>
      have hu := hws u (by simp)
      rcases f with _ | f2
      · exfalso
        simp [List.length_append] at hlen
      · rw [show (((u :: ws2).map (fun v => ' ' :: v)).flatten : List Char) =
            ' ' :: (u ++ ((ws2.map (fun v => ' ' :: v)).flatten)) from by simp] at hlen ⊢
        rw [show pySplitWsAux (f2 + 1)
            (' ' :: (u ++ ((ws2.map (fun v => ' ' :: v)).flatten))) =
            pySplitWsAux f2 (u ++ ((ws2.map (fun v => ' ' :: v)).flatten)) from by
          simp [pySplitWsAux, show isPySpace ' ' = true from by decide]]
        exact ih f2 (by omega) u ws2 hu.1 hu.2.1
          (fun v hv => hws v (by simp [hv]))
          (by simp [List.length_append] at hlen ⊢; omega)

/-- `re.split(r'\s+and\s+')` on a well-formed joined author list yields
exactly the joined single authors. -/
theorem splitAnd_joinAuthors (a : List (List Char)) (as : List (List (List Char)))
    (ha : okAuthor a) (has : ∀ x ∈ as, okAuthor x) :
    splitAnd (joinAuthors (a :: as)) = (a :: as).map joinWords := by
  rcases a with _ | ⟨w, ws⟩
  · exact absurd rfl ha.1
  have hw := ha.2 w (by simp)
  rw [joinAuthors_cons_eq w ws as]
  simp only [splitAnd]
  rw [saGo_content ((w ++ restWords ws as).length + 1) [] w ws as hw.2.1
      (fun u hu => ha.2 u (by simp [hu])) has (by omega)]
  simp [joinWords]

/-- `a.split()[-1]` of a joined author is its last word. -/
theorem lastWordL_joinWords (a : List (List Char)) (ha : okAuthor a) :
    lastWordL (joinWords a) = a.getLast?.getD [] := by
  rcases a with _ | ⟨w, ws⟩
  · exact absurd rfl ha.1
  have hw := ha.2 w (by simp)
  rw [show joinWords (w :: ws) = w ++ (ws.map (fun u => ' ' :: u)).flatten from rfl]
  simp only [lastWordL, pySplitWs]
  rw [pySplitWsAux_content ((w ++ (ws.map (fun u => ' ' :: u)).flatten).length + 1)
      w ws hw.1 hw.2.1 (fun u hu => ha.2 u (by simp [hu])) (by omega)]

/-- Every character of a joined author is a safe character or a space. -/
theorem joinWords_chars (a : List (List Char)) (ha : ∀ u ∈ a, wordOK u) :
    ∀ c ∈ joinWords a, safeChar c = true ∨ c = ' ' := by
  rcases a with _ | ⟨w, ws⟩
  · simp [joinWords]
  intro c hc
  simp [joinWords] at hc
  rcases hc with hc | ⟨u, hu, hcu⟩
  · exact Or.inl ((ha w (by simp)).2.1 c hc)
  · rcases hcu with rfl | hcu
    · exact Or.inr rfl
    · exact Or.inl ((ha u (by simp [hu])).2.1 c hcu)

/-- Every character of the joined author field is a safe character or a
space (the separator letters `a`, `n`, `d` are themselves safe). -/
theorem joinAuthors_chars : ∀ (as : List (List (List Char))),
    (∀ a ∈ as, okAuthor a) → ∀ c ∈ joinAuthors as, safeChar c = true ∨ c = ' ' := by
  intro as
  induction as with
  | nil => intro _ c hc; simp [joinAuthors] at hc
  | cons a as2 ih =>
    intro has c hc
    simp only [joinAuthors, List.mem_append] at hc
    rcases hc with hc | hc
    · exact joinWords_chars a ((has a (by simp)).2) c hc
    · cases as2 with
      | nil => simp [andTail] at hc
      | cons b bs =>
        simp only [andTail, List.mem_cons] at hc
        rcases hc with rfl | rfl | rfl | rfl | rfl | hc
        · exact Or.inr rfl
        · exact Or.inl (by decide)
        · exact Or.inl (by decide)
        · exact Or.inl (by decide)
        · exact Or.inr rfl
        · exact ih (fun x hx => has x (by simp [hx])) c hc

/-- The last character of a list of safe-or-space characters is
safe or a space. -/
theorem getLast?_of_chars (cs : List Char)
    (h : ∀ c ∈ cs, safeChar c = true ∨ c = ' ')
    (x : Char) (hx : cs.getLast? = some x) : safeChar x = true ∨ x = ' ' := by
  have hmem : x ∈ cs := by
    rcases hrev : cs.reverse with _ | ⟨r, rs⟩
    · have hnil : cs = [] := by simpa using congrArg List.reverse hrev
      subst hnil
      simp at hx
    · have h1 : cs.getLast? = some r := by
        rw [← List.head?_reverse, hrev]
        rfl
      rw [h1] at hx
      have hrx : r = x := by simpa using hx
      subst hrx
      have : r ∈ cs.reverse := by simp [hrev]
      simpa using this
  exact h x hmem

/-- `authors[-1:] == ','` fails when the last character is not a comma. -/
theorem stripTrailingComma_noop (cs : List Char) (h : cs.getLast? ≠ some ',') :
    stripTrailingComma cs = cs := by
  rcases hrev : cs.reverse with _ | ⟨r, rs⟩
  · simp [stripTrailingComma, hrev]
  · have h1 : cs.getLast? = some r := by
      rw [← List.head?_reverse, hrev]
      rfl
    have hr : ¬ r = ',' := by
      intro he
      exact h (he ▸ h1)
    simp [stripTrailingComma, hrev, hr]

/-- A trailing comma is stripped. -/
theorem stripTrailingComma_concat (cs : List Char) :
    stripTrailingComma (cs ++ [',']) = cs := by
  simp [stripTrailingComma]

/-- `re.sub(r'OP(.*)CL$', r'\1', s)` does nothing when the string does
not end with `cl`. -/
theorem subWrap_noop (op cl : Char) (cs : List Char) (h : cs.getLast? ≠ some cl) :
    subWrap op cl cs = cs := by
  rcases hrev : cs.reverse with _ | ⟨r, rs⟩
  · simp [subWrap, hrev]
  · have h1 : cs.getLast? = some r := by
      rw [← List.head?_reverse, hrev]
      rfl
    have hr : ¬ r = cl := by
      intro he
      exact h (he ▸ h1)
    simp [subWrap, hrev, hr]

/-- `re.sub(r'OP(.*)CL$', r'\1', s)` deletes an enclosing wrapper pair. -/
theorem subWrap_strip (op cl : Char) (core : List Char) :
    subWrap op cl (op :: core ++ [cl]) = core := by
  simp [subWrap, List.findIdx?_cons]

/-- The wrappers of the claim: none, double quotes, braces, or single
quotes, with an optional trailing comma outside the wrapper. -/
inductive Wrap
  | bare
  | dquote
  | brace
  | squote

def applyWrap : Wrap → List Char → List Char
  | Wrap.bare, cs => cs
  | Wrap.dquote, cs => '"' :: cs ++ ['"']
  | Wrap.brace, cs => braceL :: cs ++ [braceR]
  | Wrap.squote, cs => '\'' :: cs ++ ['\'']

def addComma : Bool → List Char → List Char
  | true, cs => cs ++ [',']
  | false, cs => cs

/-- The claimed output format: `A` / `A & B` / `A, B, & C` / `A et al`
for one, two, three, four-or-more last names. -/
def authorsFormat : List String → String
  | [x] => x
  | [x, y] => x ++ " & " ++ y
  | [x, y, z] => x ++ ", " ++ y ++ ", & " ++ z
  | x :: _ => x ++ " et al"
  | [] => ""

/-- The preprocessing chain of `bib_authors` (comma strip, then the three
wrapper substitutions) removes an optional trailing comma and one
optional wrapper pair around a safe-charactered field. -/
theorem bibAuthors_processed (wrap : Wrap) (comma : Bool) (cs : List Char)
    (h : ∀ c ∈ cs, safeChar c = true ∨ c = ' ') :
    subWrap '\'' '\'' (subWrap braceL braceR (subWrap '"' '"'
      (stripTrailingComma (addComma comma (applyWrap wrap cs))))) = cs := by
  have hlast := getLast?_of_chars cs h
  have hnotLast : ∀ cl : Char, safeChar cl = false → ¬ cl = ' ' →
      cs.getLast? ≠ some cl := by
    intro cl hcl hcl2 he
    rcases hlast cl he with hs | hs
    · rw [hcl] at hs
      exact Bool.false_ne_true hs
    · exact hcl2 hs
  have hc1 : cs.getLast? ≠ some ',' := hnotLast ',' (by decide) (by decide)
  have hc2 : cs.getLast? ≠ some '"' := hnotLast '"' (by decide) (by decide)
  have hc4 : cs.getLast? ≠ some braceR := hnotLast braceR (by decide) (by decide)
  have hc5 : cs.getLast? ≠ some '\'' := hnotLast '\'' (by decide) (by decide)
  have hglq : ∀ (o c : Char), ((o :: cs ++ [c] : List Char)).getLast? = some c := by
    intro o c
    rw [show (o :: cs ++ [c] : List Char) = (o :: cs) ++ [c] from by simp]
    exact List.getLast?_concat _
  cases wrap <;> cases comma
  · simp only [applyWrap, addComma]
    rw [stripTrailingComma_noop cs hc1, subWrap_noop '"' '"' cs hc2,
        subWrap_noop braceL braceR cs hc4, subWrap_noop '\'' '\'' cs hc5]
  · simp only [applyWrap, addComma]
    rw [stripTrailingComma_concat, subWrap_noop '"' '"' cs hc2,
        subWrap_noop braceL braceR cs hc4, subWrap_noop '\'' '\'' cs hc5]
  · simp only [applyWrap, addComma]
    rw [stripTrailingComma_noop _ (by rw [hglq '"' '"']; decide),
        subWrap_strip '"' '"' cs,
        subWrap_noop braceL braceR cs hc4, subWrap_noop '\'' '\'' cs hc5]
  · simp only [applyWrap, addComma]
    rw [stripTrailingComma_concat, subWrap_strip '"' '"' cs,
        subWrap_noop braceL braceR cs hc4, subWrap_noop '\'' '\'' cs hc5]
  · simp only [applyWrap, addComma]
    rw [stripTrailingComma_noop _ (by rw [hglq braceL braceR]; decide),
        subWrap_noop '"' '"' _ (by rw [hglq braceL braceR]; decide),
        subWrap_strip braceL braceR cs, subWrap_noop '\'' '\'' cs hc5]
  · simp only [applyWrap, addComma]
    rw [stripTrailingComma_concat,
        subWrap_noop '"' '"' _ (by rw [hglq braceL braceR]; decide),
        subWrap_strip braceL braceR cs, subWrap_noop '\'' '\'' cs hc5]
  · simp only [applyWrap, addComma]
    rw [stripTrailingComma_noop _ (by rw [hglq '\'' '\'']; decide),
        subWrap_noop '"' '"' _ (by rw [hglq '\'' '\'']; decide),
        subWrap_noop braceL braceR _ (by rw [hglq '\'' '\'']; decide),
        subWrap_strip '\'' '\'' cs]
  · simp only [applyWrap, addComma]
    rw [stripTrailingComma_concat,
        subWrap_noop '"' '"' _ (by rw [hglq '\'' '\'']; decide),
        subWrap_noop braceL braceR _ (by rw [hglq '\'' '\'']; decide),
        subWrap_strip '\'' '\'' cs]

/-- C9: for every author field given as a nonempty ` and `-separated list
of authors (each a nonempty whitespace-separated list of nonempty words
of ordinary characters), optionally wrapped in double quotes, braces or
single quotes and optionally ending in a comma, `bib_authors` strips the
comma and wrapper, reduces each author to its last name and formats the
names as `A` / `A & B` / `A, B, & C` / `A et al` for one, two, three,
four or more authors; and an entry whose author or year is missing is
reported non-fatally, the missing field rendering as `None` inside the
`[Author, Year]` string. -/
theorem c9_bib_authors (wrap : Wrap) (comma : Bool)
    (as : List (List (List Char)))
    (hne : as ≠ []) (has : ∀ a ∈ as, okAuthor a) :
    (bib_authors (String.mk (addComma comma (applyWrap wrap (joinAuthors as)))) =
      authorsFormat (as.map (fun a => String.mk (a.getLast?.getD [])))) ∧
    read_bibinfo ["@Book\x7bchomsky57,"] =
      ([("chomsky57", "[None, None]")],
       ["no author found: chomsky57", "no year found: chomsky57"]) ∧
    read_bibinfo ["@Book\x7bk9,", "author = Noam Chomsky,"] =
      ([("k9", "[Chomsky, None]")], ["no year found: k9"]) := by
  refine ⟨?_, by decide, by decide⟩
  rcases as with _ | ⟨a, as2⟩
  · exact absurd rfl hne
  have hchars := joinAuthors_chars (a :: as2) has
  have hproc := bibAuthors_processed wrap comma (joinAuthors (a :: as2)) hchars
  simp only [bib_authors]
  rw [hproc]
  rw [splitAnd_joinAuthors a as2 (has a (by simp)) (fun x hx => has x (by simp [hx]))]
  rw [show ((a :: as2).map joinWords).map lastWordL =
      (a :: as2).map (fun x => lastWordL (joinWords x)) from by
    simp [List.map_map, Function.comp]]
  rw [show (a :: as2).map (fun x => lastWordL (joinWords x)) =
      (a :: as2).map (fun x => x.getLast?.getD []) from
    List.map_congr_left (fun x hx => lastWordL_joinWords x (has x hx))]
  rcases as2 with _ | ⟨b, as3⟩
  · simp [authorsFormat]
  rcases as3 with _ | ⟨c, as4⟩
  · simp [authorsFormat]
  rcases as4 with _ | ⟨d, as5⟩
  · simp [authorsFormat]
  · simp [authorsFormat]

/-- C9 witness: the theorem applied to the braced, comma-terminated
two-author field `{Noam Chomsky and Steven Bird},`. -/
theorem c9_bib_authors_witness :
    (([["Noam".data, "Chomsky".data], ["Steven".data, "Bird".data]] :
        List (List (List Char))) ≠ []) ∧
    (∀ a ∈ ([["Noam".data, "Chomsky".data], ["Steven".data, "Bird".data]] :
        List (List (List Char))), okAuthor a) ∧
    bib_authors (String.mk (addComma true (applyWrap Wrap.brace
        (joinAuthors [["Noam".data, "Chomsky".data], ["Steven".data, "Bird".data]])))) =
      authorsFormat ([["Noam".data, "Chomsky".data], ["Steven".data, "Bird".data]].map
        (fun a => String.mk (a.getLast?.getD []))) :=
  ⟨by decide, by decide, (c9_bib_authors Wrap.brace true
      [["Noam".data, "Chomsky".data], ["Steven".data, "Bird".data]]
      (by decide) (by decide)).1⟩

end Rst
